import Mathlib

/-!
Verification of the tagventory-IA reconciliation core: a shallow embedding
of the text normalizer, location-filter builder, embedding retry logic,
embedding backfill pipeline, and the reconciliation job engine
(creation, processing, decision recording, automatic reconciliation),
together with theorems settling the specification's claims.
-/

namespace Tagventory

/-! ## String utilities (JS `\s`-based trimming and collapsing) -/

/-- Whitespace characters recognised by the JS regex class `\s` (ASCII part). -/
def isWsChar (c : Char) : Bool :=
  c = ' ' || c = '\t' || c = '\n' || c = '\r' || c = '\x0b' || c = '\x0c'

/-- Drop leading whitespace from a character list. -/
def dropWs (l : List Char) : List Char := l.dropWhile isWsChar

/-- JS `String.prototype.trim`: strip whitespace at both ends. -/
def jsTrimList (l : List Char) : List Char :=
  ((dropWs l).reverse.dropWhile isWsChar).reverse

/-- JS `String.prototype.trim` on strings. -/
def jsTrim (s : String) : String := String.mk (jsTrimList s.data)

/-- JS `String.prototype.toLowerCase` (ASCII range, character-wise). -/
def jsToLower (s : String) : String := String.mk (s.data.map Char.toLower)

/-- Replace every run of whitespace by a single space:
JS `s.replace(/\s+/g, ' ')`.  The flag records whether we are inside a run. -/
def collapseWsAux : Bool → List Char → List Char
  | _, [] => []
  | inRun, c :: rest =>
    if isWsChar c then
      if inRun then collapseWsAux true rest
      else ' ' :: collapseWsAux true rest
    else c :: collapseWsAux false rest

/-- JS `s.replace(/\s+/g, ' ')` on strings. -/
def collapseWs (s : String) : String := String.mk (collapseWsAux false s.data)

/-- Remove all whitespace: JS `s.replace(/\s+/g, '')`. -/
def removeWs (s : String) : String := String.mk (s.data.filter (fun c => !isWsChar c))

/-- `normalizeText` from `src/utils/embedding-text.js`:
`(text || '').replace(/\s+/g, ' ').trim()`. -/
def normalizeText (text : String) : String := jsTrim (collapseWs text)

/-! ## Meaningful-value filter and embedding text (scripts/backfill-all.js) -/

/-- The placeholder set from `isMeaningfulValue` in `scripts/backfill-all.js`. -/
def placeholders : List String :=
  ["s/m", "s\\m", "s.m",
   "s/n", "s\\n", "s.n",
   "na", "n/a", "n.a.",
   "sin marca", "sin modelo",
   "no aplica", "no aplica.",
   "no aplica a",
   "sin dato", "sd",
   "-", "--", "---",
   "x"]

/-- `isMeaningfulValue` from `scripts/backfill-all.js`: a value is meaningful
iff, after trimming and lower-casing, it is non-empty, not in the placeholder
set, and its whitespace-compacted form is none of `s/m`, `s/n`, `sm`, `sn`. -/
def isMeaningfulValue (v : String) : Bool :=
  if v = "" then false
  else
    let s := jsToLower (jsTrim v)
    if s = "" then false
    else if placeholders.contains s then false
    else
      let compact := removeWs s
      if compact = "s/m" || compact = "s/n" || compact = "sm" || compact = "sn" then false
      else true

/-- Descriptive attributes of a catalog entry used to build embedding text. -/
structure AssetAttrs where
  name : String
  brand : String
  model : String
  deriving Repr, DecidableEq

/-- `buildEmbeddingText` from `scripts/backfill-all.js`: push the trimmed
value of each meaningful attribute (name, brand, model, in that order), join
with spaces, then collapse whitespace and trim. -/
def buildEmbeddingText (a : AssetAttrs) : String :=
  let parts :=
    (if isMeaningfulValue a.name then [jsTrim a.name] else []) ++
    (if isMeaningfulValue a.brand then [jsTrim a.brand] else []) ++
    (if isMeaningfulValue a.model then [jsTrim a.model] else [])
  jsTrim (collapseWs (String.intercalate " " parts))

/-- Modelled from the spec (§4.1): `embeddingText` is produced by filtering
the attribute list [name, brand, model] down to its meaningful members,
space-joining them, then canonicalizing.  Stated independently of
`buildEmbeddingText` to compare the two. -/
def specEmbeddingText (a : AssetAttrs) : String :=
  normalizeText (String.intercalate " "
    (([a.name, a.brand, a.model].filter isMeaningfulValue).map jsTrim))

/-- `buildAssetEmbeddingText` from `src/utils/embedding-text.js` (used by
the sample-backfill endpoint to write `embeddingText`): joins
`name || ''`, `brand || ''`, `model || ''` with spaces and canonicalizes,
applying no meaningful-value filter. -/
def buildAssetEmbeddingText (a : AssetAttrs) : String :=
  jsTrim (collapseWs (String.intercalate " " [a.name, a.brand, a.model]))

/-! ## Location filter builder (src/utils/location-filter.js) -/

/-- Characters escaped by `escapeRegex`: `.*+?^${}()|[]\`. -/
def isRegexSpecial (c : Char) : Bool :=
  c = '.' || c = '*' || c = '+' || c = '?' || c = '^' || c = '$' ||
  c = '\x7b' || c = '\x7d' || c = '(' || c = ')' || c = '|' ||
  c = '[' || c = ']' || c = '\\'

/-- `escapeRegex` from `src/utils/location-filter.js`:
prefix every regex special character with a backslash. -/
def escapeRegex (s : String) : String :=
  String.mk (s.data.flatMap (fun c => if isRegexSpecial c then ['\\', c] else [c]))

/-- A token of the tiny anchored regexes produced by the filter builder:
a literal character or the `.` wildcard. -/
inductive RegexTok where
  | lit (c : Char)
  | any
  deriving Repr, DecidableEq

/-- Parse the body of an anchored pattern into tokens.  `\c` is the literal
`c`, `.` is the wildcard, plain characters are literals; any other regex
metacharacter is unsupported (the builder never produces one unescaped). -/
def parseRegexBody : List Char → Option (List RegexTok)
  | [] => some []
  | c :: rest =>
    if c = '\\' then
      match rest with
      | [] => none
      | d :: rest2 => (parseRegexBody rest2).map (RegexTok.lit d :: ·)
    else if c = '.' then (parseRegexBody rest).map (RegexTok.any :: ·)
    else if isRegexSpecial c then none
    else (parseRegexBody rest).map (RegexTok.lit c :: ·)

/-- Do the tokens match the start of the character list? -/
def toksAccept : List RegexTok → List Char → Bool
  | [], _ => true
  | _ :: _, [] => false
  | RegexTok.lit c :: ts, x :: xs => c = x && toksAccept ts xs
  | RegexTok.any :: ts, _ :: xs => toksAccept ts xs

/-- Semantics of an unanchored-start `^body` pattern (as Mongo `$regex`
uses it): starting at some position of the string, the body matches; with a
leading `^` the position is the start.  The builder always emits `^body`,
so we model exactly that anchored form. -/
def anchoredRegexTest (pattern : String) (s : String) : Bool :=
  match pattern.data with
  | '^' :: body =>
    match parseRegexBody body with
    | some toks => toksAccept toks s.data
    | none => false
  | _ => false

/-- The Mongo condition returned by `buildLocationMatch`: an `$or` of an
exact `locationPath` equality and a `$regex` test. -/
structure LocationMatch where
  exactPath : String
  regexPattern : String
  deriving Repr, DecidableEq

/-- `buildLocationMatch` from `src/utils/location-filter.js`: `null` for
empty/whitespace-only input, else the `$or` of equality with the trimmed
input and the anchored regex `^escaped/`. -/
def buildLocationMatch (locationFilter : String) : Option LocationMatch :=
  let trimmed := jsTrim locationFilter
  if trimmed = "" then none
  else some { exactPath := trimmed, regexPattern := "^" ++ escapeRegex trimmed ++ "/" }

/-- Whether a stored `locationPath` satisfies the built `$or` condition. -/
def locationMatchAccepts (m : LocationMatch) (path : String) : Bool :=
  path = m.exactPath || anchoredRegexTest m.regexPattern path

/-! ## Data model of the reconciliation job engine
(src/services/reconciliation-job.service.js).  Mongo documents are modelled
as Lean structures; `Date`-valued audit fields (`createdAt`, `updatedAt`,
`reconciledAt`, `embeddingUpdatedAt`) carry no claim-relevant information
and are not modelled.  Object ids are opaque strings. -/

/-- A suggestion snapshot stored on a job row (the `$project`-ed fields of a
catalog entry plus the similarity score). -/
structure Suggestion where
  assetId : String
  name : String
  brand : String
  model : String
  epc : String
  locationPath : String
  fileExt : String
  isReconciled : Bool
  score : ℚ
  deriving Repr, DecidableEq

/-- A row of a reconciliation job.  `decision` is the stored string
(`"pending"`, `"match"` or `"no_match"`), as in the documents. -/
structure JobRow where
  rowNumber : Nat
  sapDescription : String
  sapLocation : String
  suggestions : List Suggestion
  decision : String
  selectedAssetId : Option String
  deriving Repr, DecidableEq

/-- A reconciliation job document. -/
structure Job where
  status : String
  totalRows : Nat
  processedRows : Nat
  locationFilter : Option String
  rows : List JobRow
  deriving Repr, DecidableEq

/-- A catalog (`assets` collection) entry, restricted to the fields the
reconciliation core reads or writes. -/
structure CatalogEntry where
  id : String
  name : String
  brand : String
  model : String
  epc : String
  locationPath : String
  fileExt : String
  isReconciled : Bool
  reconciledJobId : Option String
  reconciledRowNumber : Option Nat
  deriving Repr, DecidableEq

/-- An input row as received by `createJob` (`sapDescription` and
`sapLocation` may be absent: JS `r.sapDescription || ''`). -/
structure InputRow where
  rowNumber : Nat
  sapDescription : Option String
  sapLocation : Option String
  deriving Repr, DecidableEq

/-! ## Job creation -/

/-- `createJob` from `reconciliation-job.service.js`: persist a new job with
all rows pending, no suggestions, `processedRows = 0`, status `"pending"`;
the location filter is trimmed and `null` when empty/whitespace-only. -/
def createJob (rows : List InputRow) (locationFilter : Option String) : Job :=
  { status := "pending"
    totalRows := rows.length
    processedRows := 0
    locationFilter :=
      match locationFilter with
      | none => none
      | some lf => if jsTrim lf = "" then none else some (jsTrim lf)
    rows := rows.map (fun r =>
      { rowNumber := r.rowNumber
        sapDescription := r.sapDescription.getD ""
        sapLocation := r.sapLocation.getD ""
        suggestions := []
        decision := "pending"
        selectedAssetId := none }) }

/-! ## Per-row candidate retrieval (the aggregation pipeline in `processJob`) -/

/-- One raw result of the external `$vectorSearch` stage: a catalog entry
together with its reported similarity score. -/
structure RawResult where
  entry : CatalogEntry
  score : ℚ
  deriving Repr, DecidableEq

/-- Turn a raw result into the stored suggestion snapshot
(the `formattedSuggestions` mapping in `processJob`). -/
def formatSuggestion (r : RawResult) : Suggestion :=
  { assetId := r.entry.id
    name := r.entry.name
    brand := r.entry.brand
    model := r.entry.model
    epc := r.entry.epc
    locationPath := r.entry.locationPath
    fileExt := r.entry.fileExt
    isReconciled := r.entry.isReconciled
    score := r.score }

/-- The post-`$vectorSearch` stages of the per-row pipeline in `processJob`:
with a location filter, `$match { $and: [locationMatch, isReconciled ≠ true] }`
then `$limit 10`; without one, `$match { isReconciled ≠ true }` then
`$limit 10`; finally the projection into suggestion snapshots. -/
def jobRowPipeline (lm : Option LocationMatch) (raw : List RawResult) : List Suggestion :=
  let filtered :=
    match lm with
    | some m => raw.filter (fun (r : RawResult) =>
        locationMatchAccepts m r.entry.locationPath && !r.entry.isReconciled)
    | none => raw.filter (fun (r : RawResult) => !r.entry.isReconciled)
  (filtered.take 10).map formatSuggestion

/-- The post-`$vectorSearch` stages of the pipeline in
`postReconciliationSuggestions` (the general-search endpoint): with a
location filter, `$match locationMatch` then `$limit searchLimit`; without
one, nothing is appended after the search (the `$project` stage only
selects fields).  There is no reconciled-entry condition on this path. -/
def suggestionsPipeline (lm : Option LocationMatch) (searchLimit : Nat)
    (raw : List RawResult) : List RawResult :=
  match lm with
  | some m => (raw.filter (fun r => locationMatchAccepts m r.entry.locationPath)).take searchLimit
  | none => raw

/-! ## Job processing -/

/-- Outcome of one row's external calls in `processJob`: either some call in
the `try` block throws (caught and logged, the row is skipped), or the
`$vectorSearch` stage returns a ranked raw result list. -/
inductive RowOutcome where
  | fail
  | search (raw : List RawResult)
  deriving Repr

/-- The row loop of `processJob`.  `i` is the row index, `processed` the
running counter.  Returns the updated rows, the final counter, the list of
successive values written to `processedRows`, and the indices of rows for
which the embedding/search calls ran. -/
def processRowsAux (env : Nat → RowOutcome) (lm : Option LocationMatch) :
    List JobRow → Nat → Nat → (List JobRow × Nat × List Nat × List Nat)
  | [], _, processed => ([], processed, [], [])
  | row :: rest, i, processed =>
    if normalizeText row.sapDescription = "" then
      let (rest', p, ws, es) := processRowsAux env lm rest (i + 1) processed
      (row :: rest', p, ws, es)
    else
      match env i with
      | RowOutcome.fail =>
        let (rest', p, ws, es) := processRowsAux env lm rest (i + 1) processed
        (row :: rest', p, ws, i :: es)
      | RowOutcome.search raw =>
        let row' := { row with suggestions := jobRowPipeline lm raw }
        let (rest', p, ws, es) := processRowsAux env lm rest (i + 1) (processed + 1)
        (row' :: rest', p, (processed + 1) :: ws, i :: es)

/-- Result of one `processJob` run: the final job document, the successive
values written to `processedRows` (row writes then the completion write),
and the indices of rows whose external calls ran. -/
structure ProcessResult where
  job : Job
  writes : List Nat
  embedded : List Nat
  deriving Repr

/-- The per-row location condition of `processJob`:
`job.locationFilter ? buildLocationMatch(job.locationFilter) : null`. -/
def jobLocationMatch (job : Job) : Option LocationMatch :=
  match job.locationFilter with
  | some lf => buildLocationMatch lf
  | none => none

/-- `processJob` from `reconciliation-job.service.js`: reject a completed
job, set status `"processing"`, run the row loop in stored order (a row with
empty normalized description is skipped without incrementing the counter; a
per-row failure is caught and skipped), then write status `"completed"`
with the final counter. -/
def processJob (env : Nat → RowOutcome) (job : Job) : Except String ProcessResult :=
  if job.status = "completed" then Except.error "Job ya fue procesado"
  else
    let (rows', processed, ws, es) := processRowsAux env (jobLocationMatch job) job.rows 0 0
    Except.ok
      { job := { job with status := "completed", processedRows := processed, rows := rows' }
        writes := ws ++ [processed]
        embedded := es }

/-! ## Decision recording -/

/-- JS truthiness of the `selectedAssetId` argument: absent or the empty
string is falsy. -/
def truthyId : Option String → Bool
  | none => false
  | some s => s ≠ ""

/-- `selectedAssetId ? new ObjectId(selectedAssetId) : null`: the stored
value is `null` when the argument is falsy. -/
def storedAssetId (sel : Option String) : Option String :=
  if truthyId sel then sel else none

/-- Update the first row whose `rowNumber` matches (Mongo positional `$`
update); `none` when no row matches (`matchedCount === 0`). -/
def updateFirstRow (rowNumber : Nat) (f : JobRow → JobRow) :
    List JobRow → Option (List JobRow)
  | [] => none
  | r :: rest =>
    if r.rowNumber = rowNumber then some (f r :: rest)
    else (updateFirstRow rowNumber f rest).map (r :: ·)

/-- The `$set` applied to the matched row in `saveDecision`: decision and
stored asset id always; suggestions cleared when the decision is
`"no_match"`. -/
def applyDecision (decision : String) (sel : Option String) (r : JobRow) : JobRow :=
  { r with
    decision := decision
    selectedAssetId := storedAssetId sel
    suggestions := if decision = "no_match" then [] else r.suggestions }

/-- The catalog-side update in `saveDecision`: `updateOne` on `_id`; the
first (hence, with unique ids, the only) matching entry is flagged
reconciled with a back-reference; zero matches leave the catalog unchanged
and raise no error. -/
def markReconciled (assetId jobId : String) (rowNumber : Nat) :
    List CatalogEntry → List CatalogEntry
  | [] => []
  | e :: rest =>
    if e.id = assetId then
      { e with isReconciled := true
               reconciledJobId := some jobId
               reconciledRowNumber := some rowNumber } :: rest
    else e :: markReconciled assetId jobId rowNumber rest

/-- `saveDecision` from `reconciliation-job.service.js`: positional update
of the row (throwing when job or row is not found), then — only for a
`"match"` decision with a truthy asset id — the catalog-side reconciled
flag update. -/
def saveDecision (jobId : String) (job : Job) (catalog : List CatalogEntry)
    (rowNumber : Nat) (decision : String) (selectedAssetId : Option String) :
    Except String (Job × List CatalogEntry) :=
  match updateFirstRow rowNumber (applyDecision decision selectedAssetId) job.rows with
  | none => Except.error "Job o fila no encontrados"
  | some rows' =>
    let job' := { job with rows := rows' }
    let catalog' :=
      if decision = "match" && truthyId selectedAssetId then
        match selectedAssetId with
        | some aid => markReconciled aid jobId rowNumber catalog
        | none => catalog
      else catalog
    Except.ok (job', catalog')

/-- An HTTP error response: status code and message. -/
structure HttpError where
  status : Nat
  message : String
  deriving Repr, DecidableEq

/-- `postDecision` from `reconciliation.controller.js`: reject a missing
`rowNumber` (400), an invalid decision value (400), and a `"match"`
decision without a truthy `selectedAssetId` (400) — all before touching any
state — then call `saveDecision` with `selectedAssetId || null`, mapping a
not-found failure to 404. -/
def postDecision (jobId : String) (job : Job) (catalog : List CatalogEntry)
    (rowNumber : Option Nat) (decision : String) (selectedAssetId : Option String) :
    Except HttpError (Job × List CatalogEntry) :=
  match rowNumber with
  | none => Except.error { status := 400, message := "El campo \x22rowNumber\x22 es requerido" }
  | some rn =>
    if !(List.contains ["match", "no_match", "pending"] decision) then
      Except.error { status := 400, message := "decision invalida" }
    else if decision = "match" && !truthyId selectedAssetId then
      Except.error
        { status := 400
          message := "Si decision es \x22match\x22, \x22selectedAssetId\x22 es requerido" }
    else
      match saveDecision jobId job catalog rn decision
          (if truthyId selectedAssetId then selectedAssetId else none) with
      | Except.error msg => Except.error { status := 404, message := msg }
      | Except.ok out => Except.ok out

/-! ## Automatic reconciliation -/

/-- `Math.max(...suggestions.map((s) => Number(s.score) || 0))`, and `0`
for an empty suggestion list. -/
def bestScore (suggestions : List Suggestion) : ℚ :=
  match suggestions.map (fun s => s.score) with
  | [] => 0
  | x :: xs => xs.foldl max x

/-- Stable insertion step for a descending sort by a rational key
(JS `sort` with a numeric comparator is stable). -/
def insertByKeyDesc (key : α → ℚ) (x : α) : List α → List α
  | [] => [x]
  | y :: ys => if key y ≤ key x then x :: y :: ys else y :: insertByKeyDesc key x ys

/-- Stable descending sort by a rational key. -/
def sortByKeyDesc (key : α → ℚ) (l : List α) : List α :=
  l.foldr (insertByKeyDesc key) []

/-- The candidate scan in `autoReconcileJob`: sort the row's suggestions by
descending score and take the first whose asset id is truthy, whose score
reaches `minScore`, whose id is not already assigned, and which is not
flagged reconciled. -/
def pickCandidate (minScore : ℚ) (assigned : List String)
    (suggestions : List Suggestion) : Option Suggestion :=
  (sortByKeyDesc (fun s => s.score) suggestions).find? (fun s =>
    s.assetId ≠ "" && decide (minScore ≤ s.score) &&
    !assigned.contains s.assetId && !s.isReconciled)

/-- The ids already linked via an existing `"match"` decision (the seed of
the `assignedIds` set, and the assigned-id reading of a job used by the
no-duplicate guarantee). -/
def matchAssetIds (rows : List JobRow) : List String :=
  rows.filterMap (fun r => if r.decision = "match" then r.selectedAssetId else none)

/-- The main loop of `autoReconcileJob` over the pending rows (already
sorted by descending best score), threading the job/catalog state, the
assigned-id set and the `autoMatched` counter. -/
def autoReconcileLoop (jobId : String) (minScore : ℚ) :
    List JobRow → Job → List CatalogEntry → List String → Nat →
    Except String (Job × List CatalogEntry × Nat)
  | [], job, cat, _, n => Except.ok (job, cat, n)
  | row :: rest, job, cat, assigned, n =>
    if row.suggestions.isEmpty then
      autoReconcileLoop jobId minScore rest job cat assigned n
    else
      match pickCandidate minScore assigned row.suggestions with
      | none => autoReconcileLoop jobId minScore rest job cat assigned n
      | some c =>
        match saveDecision jobId job cat row.rowNumber "match" (some c.assetId) with
        | Except.error e => Except.error e
        | Except.ok (job', cat') =>
          autoReconcileLoop jobId minScore rest job' cat' (c.assetId :: assigned) (n + 1)

/-- `autoReconcileJob` from `reconciliation-job.service.js`: seed the
assigned set with the ids of existing match decisions, sort the still
pending rows by descending best suggestion score, and greedily record a
`"match"` decision (through `saveDecision`) for the first qualifying
candidate of each row. -/
def autoReconcileJob (jobId : String) (job : Job) (catalog : List CatalogEntry)
    (minScore : ℚ) : Except String (Job × List CatalogEntry × Nat) :=
  let assigned0 := matchAssetIds job.rows
  let pendingRows := job.rows.filter (fun r =>
    r.decision ≠ "match" && r.decision ≠ "no_match")
  let sorted := sortByKeyDesc (fun r => bestScore r.suggestions) pendingRows
  autoReconcileLoop jobId minScore sorted job catalog assigned0 0

/-! ## Embedding client calls and retry behaviour -/

/-- Outcome of one call to the embedding provider, as the caller classifies
it: success with the returned vectors, or a failure that is retryable
(HTTP 429, 5xx, `ETIMEDOUT`, `ECONNRESET`) or fatal. -/
inductive ProviderOutcome where
  | ok (vecs : List (List ℚ))
  | err (retryable : Bool)
  deriving Repr, DecidableEq

instance {ε α : Type} [DecidableEq ε] [DecidableEq α] : DecidableEq (Except ε α) := by
  intro a b
  cases a <;> cases b
  case error.error x y =>
    exact if h : x = y then isTrue (by rw [h]) else isFalse (fun he => by cases he; exact h rfl)
  case ok.ok x y =>
    exact if h : x = y then isTrue (by rw [h]) else isFalse (fun he => by cases he; exact h rfl)
  case error.ok x y => exact isFalse (fun he => by cases he)
  case ok.error x y => exact isFalse (fun he => by cases he)

/-- Trace of one embedding call from the caller's viewpoint: the final
result (an error carries its retryable flag), the number of provider calls
made, and the backoff delays slept between calls (milliseconds). -/
structure RetryTrace where
  result : Except Bool (List (List ℚ))
  calls : Nat
  delays : List Nat
  deriving Repr, DecidableEq

/-- The retry loop of `getEmbeddingsBatch` in `scripts/backfill-all.js`.
`outcomes k` is the outcome of the `k`-th provider call; `k` counts the
failures so far (the JS `attempt` counter before increment).  On a failure
the loop re-raises when the error is not retryable or `attempt` exceeds
`maxRetries`, else sleeps `min(30000, 1000 * 2^(attempt-1))` and retries.
The fuel argument only bounds the recursion; `maxRetries + 1` is enough. -/
def embedBatchGo (outcomes : Nat → ProviderOutcome) (maxRetries : Nat) :
    Nat → Nat → RetryTrace
  | 0, _ => { result := Except.error true, calls := 0, delays := [] }
  | fuel + 1, k =>
    match outcomes k with
    | ProviderOutcome.ok v => { result := Except.ok v, calls := 1, delays := [] }
    | ProviderOutcome.err r =>
      let attempt := k + 1
      if !r || decide (maxRetries < attempt) then
        { result := Except.error r, calls := 1, delays := [] }
      else
        let backoff := min 30000 (1000 * 2 ^ (attempt - 1))
        let t := embedBatchGo outcomes maxRetries fuel (k + 1)
        { result := t.result, calls := t.calls + 1, delays := backoff :: t.delays }

/-- Default `maxRetries` of `getEmbeddingsBatch` (`{ maxRetries = 5 }`). -/
def defaultMaxRetries : Nat := 5

/-- The exponential backoff schedule: `n` delays starting at attempt index
`k`, the `i`-th being `min(30000, 1000 * 2^i)` — base 1000 ms, doubling,
capped at 30000 ms. -/
def backoffSeq : Nat → Nat → List Nat
  | _, 0 => []
  | k, n + 1 => min 30000 (1000 * 2 ^ k) :: backoffSeq (k + 1) n

/-- `getEmbeddingsBatch` from `scripts/backfill-all.js`, as a trace over a
given sequence of provider outcomes. -/
def getEmbeddingsBatch (outcomes : Nat → ProviderOutcome) (maxRetries : Nat) :
    RetryTrace :=
  embedBatchGo outcomes maxRetries (maxRetries + 1) 0

/-- Outcome of one call to the provider for a single text. -/
inductive SingleOutcome where
  | ok (vec : List ℚ)
  | err (retryable : Bool)
  deriving Repr, DecidableEq

/-- `getTextEmbedding` from `src/services/embedding.service.js`: a single
provider call with no retry loop of any kind; any failure — retryable or
not — propagates to the caller, and exactly one call is made. -/
def getTextEmbedding (outcome : SingleOutcome) : Except Bool (List ℚ) × Nat :=
  (match outcome with
   | SingleOutcome.ok v => Except.ok v
   | SingleOutcome.err r => Except.error r, 1)

/-! ## Embedding backfill pipeline (scripts/backfill-all.js, `main`) -/

/-- A catalog entry as the backfill scan sees it; `id` is the Mongo `_id`
(the stable sort key). -/
structure BackfillAsset where
  id : Nat
  name : String
  brand : String
  model : String
  textEmbedding : Option (List ℚ)
  embeddingText : Option String
  embeddingSkipReason : Option String
  deriving Repr, DecidableEq

/-- An entry is pending when it has neither `textEmbedding` nor
`embeddingSkipReason` (the fetch filter of step 1). -/
def isPending (a : BackfillAsset) : Bool :=
  a.textEmbedding.isNone && a.embeddingSkipReason.isNone

/-- Insertion step of the ascending sort by `_id` used by the fetch. -/
def insertByIdAsc (x : BackfillAsset) : List BackfillAsset → List BackfillAsset
  | [] => [x]
  | y :: ys => if x.id ≤ y.id then x :: y :: ys else y :: insertByIdAsc x ys

/-- Ascending sort by `_id`. -/
def sortByIdAsc (l : List BackfillAsset) : List BackfillAsset :=
  l.foldr insertByIdAsc []

/-- The fetch of step 1: pending entries, sorted by `_id`, first
`batchSize` of them. -/
def fetchBatch (batchSize : Nat) (catalog : List BackfillAsset) : List BackfillAsset :=
  (sortByIdAsc (catalog.filter isPending)).take batchSize

/-- The effect of the conditional skip write on one document: an entry in
`ids` that still lacks an embedding gets `embeddingSkipReason =
"missing_name"`. -/
def skipFn (ids : List Nat) (a : BackfillAsset) : BackfillAsset :=
  if ids.contains a.id && a.textEmbedding.isNone then
    { a with embeddingSkipReason := some "missing_name" }
  else a

/-- The conditional skip write over the whole collection. -/
def markSkips (ids : List Nat) (catalog : List BackfillAsset) : List BackfillAsset :=
  catalog.map (skipFn ids)

/-- The effect of the conditional embedding write on one document: an entry
listed in `items` (id with computed embedding text) that still lacks an
embedding gets `embeddingText`, `textEmbedding` (via the provider, modelled
by `embedOf`), and any prior skip reason cleared (`$unset`). -/
def embedFn (embedOf : String → List ℚ) (items : List (Nat × String))
    (a : BackfillAsset) : BackfillAsset :=
  match items.find? (fun it => it.1 = a.id) with
  | some it =>
    if a.textEmbedding.isNone then
      { a with embeddingText := some it.2
               textEmbedding := some (embedOf it.2)
               embeddingSkipReason := none }
    else a
  | none => a

/-- The conditional embedding write over the whole collection. -/
def applyEmbeds (embedOf : String → List ℚ) (items : List (Nat × String))
    (catalog : List BackfillAsset) : List BackfillAsset :=
  catalog.map (embedFn embedOf items)

/-- The embedding text the backfill computes for an asset. -/
def backfillText (a : BackfillAsset) : String :=
  buildEmbeddingText { name := a.name, brand := a.brand, model := a.model }

/-- One run of the backfill loop of `main`: fetch a batch, stop when it is
empty; otherwise mark entries whose name is not meaningful with the skip
reason, embed the rest in one batched provider call (modelled as always
succeeding — the claims concern runs that complete), write conditionally,
count one write per issued update, and repeat.  The fuel argument only
bounds the recursion; `catalog.length + 1` is enough when every iteration
settles at least one pending entry. -/
def backfillLoop (embedOf : String → List ℚ) (batchSize : Nat) :
    Nat → List BackfillAsset → Nat → (List BackfillAsset × Nat)
  | 0, catalog, writes => (catalog, writes)
  | fuel + 1, catalog, writes =>
    let batch := fetchBatch batchSize catalog
    if batch.isEmpty then (catalog, writes)
    else
      let toSkip := batch.filter (fun a => !isMeaningfulValue a.name)
      let toEmbed := (batch.filter (fun a => isMeaningfulValue a.name)).map
        (fun a => (a.id, backfillText a))
      let cat1 := markSkips (toSkip.map (fun a => a.id)) catalog
      let cat2 := applyEmbeds embedOf toEmbed cat1
      backfillLoop embedOf batchSize fuel cat2 (writes + toSkip.length + toEmbed.length)

/-- A full backfill run (`main` without the dry-run branch), returning the
final catalog and the number of issued writes. -/
def runBackfill (embedOf : String → List ℚ) (batchSize : Nat)
    (catalog : List BackfillAsset) : List BackfillAsset × Nat :=
  backfillLoop embedOf batchSize (catalog.length + 1) catalog 0

/-! ## Concrete documents used by witnesses and counterexamples -/

/-- A minimal suggestion snapshot with a given asset id and score. -/
def demoSuggestion (id : String) (score : ℚ) : Suggestion :=
  { assetId := id, name := "", brand := "", model := "", epc := ""
    locationPath := "", fileExt := "", isReconciled := false, score := score }

/-- A pending job row with the given row number and suggestions. -/
def demoRow (n : Nat) (sugs : List Suggestion) : JobRow :=
  { rowNumber := n, sapDescription := "tanque diesel", sapLocation := ""
    suggestions := sugs, decision := "pending", selectedAssetId := none }

/-- A processed job whose first two rows share their top candidate `"A"`
with scores 0.90 and 0.95, the first row also holding a distinct
second-best candidate `"C"`. -/
def demoContendedJob : Job :=
  { status := "completed", totalRows := 2, processedRows := 2, locationFilter := none
    rows := [demoRow 1 [demoSuggestion "A" (mkRat 9 10), demoSuggestion "C" (mkRat 82 100)],
             demoRow 2 [demoSuggestion "A" (mkRat 95 100)]] }

/-- The outcome of `autoReconcileJob` on `demoContendedJob` with
`minScore = 0.8`: the more confident row 2 takes `"A"`, row 1 takes its
next-best distinct candidate `"C"`. -/
def demoContendedResultJob : Job :=
  { status := "completed", totalRows := 2, processedRows := 2, locationFilter := none
    rows := [{ rowNumber := 1, sapDescription := "tanque diesel", sapLocation := ""
               suggestions := [demoSuggestion "A" (mkRat 9 10), demoSuggestion "C" (mkRat 82 100)]
               decision := "match", selectedAssetId := some "C" },
             { rowNumber := 2, sapDescription := "tanque diesel", sapLocation := ""
               suggestions := [demoSuggestion "A" (mkRat 95 100)]
               decision := "match", selectedAssetId := some "A" }] }

/-- A processed one-row job. -/
def demoOneRowJob : Job :=
  { status := "completed", totalRows := 1, processedRows := 1, locationFilter := none
    rows := [demoRow 1 [demoSuggestion "A" (mkRat 9 10)]] }

/-- The one-row job after a `"no_match"` decision carrying a (spurious)
asset id: suggestions cleared, id stored as given. -/
def demoOneRowJobNoMatch : Job :=
  { status := "completed", totalRows := 1, processedRows := 1, locationFilter := none
    rows := [{ rowNumber := 1, sapDescription := "tanque diesel", sapLocation := ""
               suggestions := [], decision := "no_match", selectedAssetId := some "abc" }] }

/-- Consecutive naturals: `natSeq s n = [s, s+1, …, s+n-1]`. -/
def natSeq : Nat → Nat → List Nat
  | _, 0 => []
  | s, n + 1 => s :: natSeq (s + 1) n

/-- A freshly created two-row job (second row whitespace-only). -/
def demoRunJob : Job :=
  createJob [{ rowNumber := 1, sapDescription := some "tanque diesel", sapLocation := none },
             { rowNumber := 2, sapDescription := some " ", sapLocation := none }] none

/-- An environment whose searches return no raw results. -/
def demoEnv : Nat → RowOutcome := fun _ => RowOutcome.search []

/-- The run of `processJob demoEnv demoRunJob`. -/
def demoRunResult : ProcessResult :=
  { job := { status := "completed", totalRows := 2, processedRows := 1, locationFilter := none
             rows := [{ rowNumber := 1, sapDescription := "tanque diesel", sapLocation := ""
                        suggestions := [], decision := "pending", selectedAssetId := none },
                      { rowNumber := 2, sapDescription := " ", sapLocation := ""
                        suggestions := [], decision := "pending", selectedAssetId := none }] }
    writes := [1, 1]
    embedded := [0] }

/-- The spec's row invariant: `selectedAssetId` is non-null iff the
decision is `"match"`. -/
def rowInvariant (r : JobRow) : Prop :=
  r.selectedAssetId.isSome = true ↔ r.decision = "match"

instance (r : JobRow) : Decidable (rowInvariant r) := by
  unfold rowInvariant
  infer_instance

/-- The row invariant over every row of a job. -/
def jobInvariant (j : Job) : Prop :=
  ∀ r ∈ j.rows, rowInvariant r

instance (j : Job) : Decidable (jobInvariant j) := by
  unfold jobInvariant
  infer_instance

/-- The one-row job after a `"match"` decision on asset `"A"`. -/
def demoOneRowJobMatched : Job :=
  { status := "completed", totalRows := 1, processedRows := 1, locationFilter := none
    rows := [{ rowNumber := 1, sapDescription := "tanque diesel", sapLocation := ""
               suggestions := [demoSuggestion "A" (mkRat 9 10)], decision := "match"
               selectedAssetId := some "A" }] }

/-- A small backfill catalog: a placeholder name, a meaningful name and an
empty name. -/
def demoBackfillCatalog : List BackfillAsset :=
  [{ id := 3, name := "s/n", brand := "BrandCo", model := "M1"
     textEmbedding := none, embeddingText := none, embeddingSkipReason := none },
   { id := 1, name := "Dell", brand := "BrandCo", model := "M1"
     textEmbedding := none, embeddingText := none, embeddingSkipReason := none },
   { id := 2, name := "", brand := "BrandCo", model := "M1"
     textEmbedding := none, embeddingText := none, embeddingSkipReason := none }]

/-- A catalog entry already flagged reconciled. -/
def demoReconciledEntry : CatalogEntry :=
  { id := "R1", name := "Bomba", brand := "Acme", model := "B2", epc := ""
    locationPath := "Site/BuildingA", fileExt := "", isReconciled := true
    reconciledJobId := some "oldjob", reconciledRowNumber := some 7 }

/-- A catalog entry not yet reconciled. -/
def demoFreeEntry : CatalogEntry :=
  { id := "F1", name := "Tanque", brand := "Acme", model := "T9", epc := ""
    locationPath := "Site/BuildingB", fileExt := "", isReconciled := false
    reconciledJobId := none, reconciledRowNumber := none }

/-! ## Theorems -/

lemma filter_parts_eq (a : AssetAttrs) :
    (if isMeaningfulValue a.name then [jsTrim a.name] else []) ++
      (if isMeaningfulValue a.brand then [jsTrim a.brand] else []) ++
      (if isMeaningfulValue a.model then [jsTrim a.model] else []) =
    ([a.name, a.brand, a.model].filter isMeaningfulValue).map jsTrim := by
  cases h1 : isMeaningfulValue a.name <;>
    cases h2 : isMeaningfulValue a.brand <;>
      cases h3 : isMeaningfulValue a.model <;>
        simp [List.filter, h1, h2, h3]

/-- C8 counterexample: `buildAssetEmbeddingText` — the producer of
`embeddingText` on the sample-backfill path cited by the claim — keeps the
non-meaningful placeholder "N/A" in the output, so the embedding text is
not built from only the meaningful attribute values on that path (the
spec-worded construction would drop it). -/
theorem asset_embedding_text_keeps_placeholder :
    buildAssetEmbeddingText { name := "Printer", brand := "N/A", model := "" } =
      "Printer N/A" ∧
    isMeaningfulValue "N/A" = false ∧
    specEmbeddingText { name := "Printer", brand := "N/A", model := "" } = "Printer" := by
  refine ⟨by decide, by decide, by decide⟩

/-- C8 (amended): on the bulk backfill path (`scripts/backfill-all.js`) the
embedding text concatenates exactly the meaningful values among name,
brand, model, in that order, space-joined and canonicalized
(`buildEmbeddingText` agrees with the spec-worded `specEmbeddingText`),
with the placeholder classification as claimed — "s/n", "N/A", "", "  ",
"-", "x" non-meaningful, "Dell" and "HP LaserJet" meaningful; the
sample-backfill path's `buildAssetEmbeddingText` instead joins all three
attribute values unfiltered before canonicalizing. -/
theorem embedding_text_meaningful_on_bulk_path :
    (∀ a : AssetAttrs, buildEmbeddingText a = specEmbeddingText a) ∧
    (∀ a : AssetAttrs, buildAssetEmbeddingText a =
      normalizeText (String.intercalate " " [a.name, a.brand, a.model])) ∧
    isMeaningfulValue "s/n" = false ∧
    isMeaningfulValue "N/A" = false ∧
    isMeaningfulValue "" = false ∧
    isMeaningfulValue "  " = false ∧
    isMeaningfulValue "-" = false ∧
    isMeaningfulValue "x" = false ∧
    isMeaningfulValue "Dell" = true ∧
    isMeaningfulValue "HP LaserJet" = true := by
  refine ⟨fun a => ?_, fun a => rfl, by decide, by decide, by decide, by decide,
    by decide, by decide, by decide, by decide⟩
  unfold buildEmbeddingText specEmbeddingText normalizeText
  rw [filter_parts_eq]

/-- C2 (amended): reconciled entries are excluded on the job-processing
path — every suggestion the per-row pipeline of `processJob` returns has
`isReconciled = false` — but the general-search suggestions endpoint
applies no reconciled-exclusion at all: without a location filter its
pipeline returns the raw search results unchanged. -/
theorem reconciled_exclusion_job_path_only :
    (∀ (lm : Option LocationMatch) (raw : List RawResult) (s : Suggestion),
      s ∈ jobRowPipeline lm raw → s.isReconciled = false) ∧
    (∀ (searchLimit : Nat) (raw : List RawResult),
      suggestionsPipeline none searchLimit raw = raw) := by
  constructor
  · intro lm raw s hs
    unfold jobRowPipeline at hs
    rcases List.mem_map.1 hs with ⟨r, hr, rfl⟩
    have hr2 := List.mem_of_mem_take hr
    have hrec : r.entry.isReconciled = false := by
      cases lm with
      | some m =>
        have := (List.mem_filter.1 hr2).2
        simp only [Bool.and_eq_true, Bool.not_eq_true'] at this
        exact this.2
      | none =>
        have := (List.mem_filter.1 hr2).2
        simpa using this
    simpa [formatSuggestion] using hrec
  · intro _ raw
    rfl

/-- C2 counterexample: the suggestions-endpoint pipeline returns a raw
result whose entry is flagged reconciled, so the exclusion does not hold on
the general-search path. -/
theorem reconciled_entry_passes_suggestions_endpoint :
    suggestionsPipeline none 10 [{ entry := demoReconciledEntry, score := mkRat 9 10 }] =
      [{ entry := demoReconciledEntry, score := mkRat 9 10 }] ∧
    demoReconciledEntry.isReconciled = true :=
  ⟨rfl, rfl⟩

/-- C2 witness for the amended theorem: the job-row pipeline drops the
reconciled entry and keeps the free one. -/
theorem reconciled_exclusion_job_path_witness :
    jobRowPipeline none
        [{ entry := demoReconciledEntry, score := mkRat 9 10 },
         { entry := demoFreeEntry, score := mkRat 8 10 }] =
      [formatSuggestion { entry := demoFreeEntry, score := mkRat 8 10 }] ∧
    (formatSuggestion { entry := demoFreeEntry, score := mkRat 8 10 }).isReconciled = false := by
  have hpipe : jobRowPipeline none
      [{ entry := demoReconciledEntry, score := mkRat 9 10 },
       { entry := demoFreeEntry, score := mkRat 8 10 }] =
      [formatSuggestion { entry := demoFreeEntry, score := mkRat 8 10 }] := rfl
  refine ⟨hpipe, ?_⟩
  exact reconciled_exclusion_job_path_only.1 none
    [{ entry := demoReconciledEntry, score := mkRat 9 10 },
     { entry := demoFreeEntry, score := mkRat 8 10 }]
    (formatSuggestion { entry := demoFreeEntry, score := mkRat 8 10 })
    (by rw [hpipe]; exact List.mem_singleton_self _)

/-- C5 counterexample: the Job Engine's per-row embedding call makes
exactly one provider call and propagates a retryable failure without any
retry, so the retry contract is not applied on the per-row path. -/
theorem per_row_embedding_call_does_not_retry :
    getTextEmbedding (SingleOutcome.err true) = (Except.error true, 1) :=
  rfl

lemma embedBatchGo_delays (outcomes : Nat → ProviderOutcome) (m : Nat) :
    ∀ fuel k, (embedBatchGo outcomes m fuel k).delays =
      backoffSeq k (embedBatchGo outcomes m fuel k).delays.length
  | 0, k => by simp [embedBatchGo, backoffSeq]
  | fuel + 1, k => by
    cases h : outcomes k with
    | ok v => simp [embedBatchGo, h, backoffSeq]
    | err r =>
      by_cases hr : (!r || decide (m < k + 1)) = true
      · simp [embedBatchGo, h, hr, backoffSeq]
      · have ih := embedBatchGo_delays outcomes m fuel (k + 1)
        simp only [embedBatchGo, h, hr, Bool.false_eq_true, if_false]
        simp only [List.length_cons, backoffSeq, Nat.add_sub_cancel]
        exact congrArg _ ih

lemma embedBatchGo_calls_le (outcomes : Nat → ProviderOutcome) (m : Nat) :
    ∀ fuel k, (embedBatchGo outcomes m fuel k).calls ≤ fuel
  | 0, k => by simp [embedBatchGo]
  | fuel + 1, k => by
    cases h : outcomes k with
    | ok v => simp [embedBatchGo, h]
    | err r =>
      by_cases hr : (!r || decide (m < k + 1)) = true
      · simp [embedBatchGo, h, hr]
      · have ih := embedBatchGo_calls_le outcomes m fuel (k + 1)
        simp only [embedBatchGo, h, hr, Bool.false_eq_true, if_false]
        omega

lemma embedBatchGo_all_retryable (outcomes : Nat → ProviderOutcome) (m : Nat)
    (hall : ∀ j, outcomes j = ProviderOutcome.err true) :
    ∀ fuel k, m + 1 = fuel + k →
      (embedBatchGo outcomes m fuel k).result = Except.error true ∧
      (embedBatchGo outcomes m fuel k).calls = fuel
  | 0, k, hk => by simp [embedBatchGo]
  | fuel + 1, k, hk => by
    by_cases hmk : m < k + 1
    · have hfuel : fuel = 0 := by omega
      subst hfuel
      simp [embedBatchGo, hall k, hmk]
    · have ih := embedBatchGo_all_retryable outcomes m hall fuel (k + 1) (by omega)
      simp only [embedBatchGo, hall k, Bool.not_true, Bool.false_or,
        decide_eq_true_eq, if_neg hmk]
      exact ⟨ih.1, by rw [ih.2]⟩

/-- C5 (amended): the retry contract — exponential backoff with base
1000 ms, doubling each attempt, capped at 30000 ms, at most
`maxRetries + 1` provider calls, exhausting all retries on persistent
retryable failures, re-raising a fatal failure immediately — is implemented
by the backfill's batched call `getEmbeddingsBatch`; the Job Engine's
per-row `getTextEmbedding` makes exactly one provider call and has no retry
loop. -/
theorem batch_embedding_backoff_contract (outcomes : Nat → ProviderOutcome) (m : Nat) :
    (getEmbeddingsBatch outcomes m).delays =
      backoffSeq 0 (getEmbeddingsBatch outcomes m).delays.length ∧
    (getEmbeddingsBatch outcomes m).calls ≤ m + 1 ∧
    ((∀ j, outcomes j = ProviderOutcome.err true) →
      (getEmbeddingsBatch outcomes m).result = Except.error true ∧
      (getEmbeddingsBatch outcomes m).calls = m + 1) ∧
    (outcomes 0 = ProviderOutcome.err false →
      (getEmbeddingsBatch outcomes m).result = Except.error false ∧
      (getEmbeddingsBatch outcomes m).calls = 1) ∧
    (∀ o : SingleOutcome, (getTextEmbedding o).2 = 1) := by
  refine ⟨embedBatchGo_delays outcomes m (m + 1) 0,
    embedBatchGo_calls_le outcomes m (m + 1) 0,
    fun hall => embedBatchGo_all_retryable outcomes m hall (m + 1) 0 (by omega),
    fun h0 => ?_, fun o => rfl⟩
  unfold getEmbeddingsBatch embedBatchGo
  simp [h0]

/-- C5 witness: with a provider that always fails retryably and
`maxRetries = 5`, the batched call makes 6 calls, sleeps the capped doubling
schedule and re-raises; the per-row call makes one call. -/
theorem batch_embedding_backoff_contract_witness :
    ((fun _ => ProviderOutcome.err true) 0 = ProviderOutcome.err true) ∧
    (getEmbeddingsBatch (fun _ => ProviderOutcome.err true) defaultMaxRetries).result =
      Except.error true ∧
    (getEmbeddingsBatch (fun _ => ProviderOutcome.err true) defaultMaxRetries).calls = 6 ∧
    (getEmbeddingsBatch (fun _ => ProviderOutcome.err true) defaultMaxRetries).delays =
      [1000, 2000, 4000, 8000, 16000] ∧
    (getTextEmbedding (SingleOutcome.ok [1])).2 = 1 := by
  have h := batch_embedding_backoff_contract (fun _ => ProviderOutcome.err true) defaultMaxRetries
  have hall : ∀ j : Nat, (fun _ => ProviderOutcome.err true) j = ProviderOutcome.err true :=
    fun _ => rfl
  exact ⟨rfl, (h.2.2.1 hall).1, (h.2.2.1 hall).2, by decide, h.2.2.2.2 (SingleOutcome.ok [1])⟩

lemma updateFirstRow_eq_some {rn : Nat} {f : JobRow → JobRow} :
    ∀ {rows rows' : List JobRow}, updateFirstRow rn f rows = some rows' →
      ∃ l1 r0 l2, rows = l1 ++ r0 :: l2 ∧ rows' = l1 ++ f r0 :: l2 ∧
        r0.rowNumber = rn ∧ ∀ x ∈ l1, x.rowNumber ≠ rn
  | [], _, h => by simp [updateFirstRow] at h
  | r :: rest, rows', h => by
    by_cases hr : r.rowNumber = rn
    · rw [updateFirstRow, if_pos hr] at h
      exact ⟨[], r, rest, by simp, by simpa using h.symm, hr, by simp⟩
    · rw [updateFirstRow, if_neg hr] at h
      rcases Option.map_eq_some'.1 h with ⟨rest', hrest, hrows'⟩
      rcases updateFirstRow_eq_some hrest with ⟨l1, r0, l2, hdec, hdec', hr0, hl1⟩
      refine ⟨r :: l1, r0, l2, by simp [hdec], by simp [hdec', hrows'.symm], hr0, ?_⟩
      intro x hx
      rcases List.mem_cons.1 hx with rfl | hx
      · exact hr
      · exact hl1 x hx

lemma updateFirstRow_exists {rn : Nat} {f : JobRow → JobRow} :
    ∀ {rows : List JobRow}, (∃ r ∈ rows, r.rowNumber = rn) →
      ∃ rows', updateFirstRow rn f rows = some rows'
  | [], h => by simp at h
  | r :: rest, h => by
    by_cases hr : r.rowNumber = rn
    · exact ⟨f r :: rest, by rw [updateFirstRow, if_pos hr]⟩
    · have hrest : ∃ x ∈ rest, x.rowNumber = rn := by
        rcases h with ⟨x, hx, hxn⟩
        rcases List.mem_cons.1 hx with rfl | hx
        · exact absurd hxn hr
        · exact ⟨x, hx, hxn⟩
      rcases updateFirstRow_exists (f := f) hrest with ⟨rest', hrest'⟩
      exact ⟨r :: rest', by rw [updateFirstRow, if_neg hr, hrest', Option.map_some']⟩

lemma markReconciled_absent {aid jobId : String} {rn : Nat} :
    ∀ {catalog : List CatalogEntry}, (∀ e ∈ catalog, e.id ≠ aid) →
      markReconciled aid jobId rn catalog = catalog
  | [], _ => rfl
  | e :: rest, h => by
    rw [markReconciled, if_neg (h e (List.mem_cons_self e rest))]
    rw [markReconciled_absent (fun x hx => h x (List.mem_cons_of_mem e hx))]

/-- C3: `setDecision` with `decision = "match"` and a null `selectedAssetId`
always fails validation with a 400 error before any state is touched, and a
successful `"no_match"` decision always clears the addressed row's stored
suggestions. -/
theorem decision_validation_and_no_match_clearing :
    (∀ (jobId : String) (job : Job) (catalog : List CatalogEntry) (rn : Nat),
      postDecision jobId job catalog (some rn) "match" none =
        Except.error
          { status := 400
            message := "Si decision es \x22match\x22, \x22selectedAssetId\x22 es requerido" }) ∧
    (∀ (jobId : String) (job : Job) (catalog : List CatalogEntry) (rn : Nat)
        (sel : Option String) (out : Job × List CatalogEntry),
      (job.rows.map JobRow.rowNumber).Nodup →
      postDecision jobId job catalog (some rn) "no_match" sel = Except.ok out →
      ∀ r ∈ out.1.rows, r.rowNumber = rn → r.suggestions = []) := by
  constructor
  · intro jobId job catalog rn
    rfl
  · intro jobId job catalog rn sel out hnodup hpost r hr hrn
    have hpost' :
        (match saveDecision jobId job catalog rn "no_match"
            (if truthyId sel then sel else none) with
         | Except.error msg =>
            (Except.error { status := 404, message := msg } :
              Except HttpError (Job × List CatalogEntry))
         | Except.ok o => Except.ok o) = Except.ok out := hpost
    rcases hsd : saveDecision jobId job catalog rn "no_match"
        (if truthyId sel then sel else none) with msg | o2
    · rw [hsd] at hpost'
      exact absurd hpost' (by simp)
    · rw [hsd] at hpost'
      have hout : o2 = out := by simpa using hpost'
      unfold saveDecision at hsd
      rcases hup : updateFirstRow rn
          (applyDecision "no_match" (if truthyId sel then sel else none)) job.rows
        with _ | rows'
      · rw [hup] at hsd
        exact absurd hsd (by simp)
      · rw [hup] at hsd
        have hrows : out.1.rows = rows' := by
          rw [← hout, ← Except.ok.inj hsd]
        rcases updateFirstRow_eq_some hup with ⟨l1, r0, l2, hdec, hdec', hr0, hl1⟩
        rw [hrows, hdec'] at hr
        rcases List.mem_append.1 hr with h1 | h2
        · exact absurd hrn (hl1 r h1)
        · rcases List.mem_cons.1 h2 with rfl | h3
          · simp [applyDecision]
          · exfalso
            have hmap : (job.rows.map JobRow.rowNumber) =
                l1.map JobRow.rowNumber ++ r0.rowNumber :: l2.map JobRow.rowNumber := by
              rw [hdec]; simp
            rw [hmap] at hnodup
            have : r0.rowNumber ∉ l2.map JobRow.rowNumber :=
              fun hmem => (List.nodup_cons.1 (List.nodup_middle.1 hnodup)).1
                (List.mem_append_right _ hmem)
            exact this (by rw [hr0, ← hrn]; exact List.mem_map_of_mem _ h3)

/-- C3 witness: on a concrete one-row job, the invalid `"match"` call
returns the 400 error, and a `"no_match"` decision leaves the row with no
suggestions. -/
theorem decision_validation_witness :
    (postDecision "j" demoOneRowJob [] (some 1) "match" none =
      Except.error
        { status := 400
          message := "Si decision es \x22match\x22, \x22selectedAssetId\x22 es requerido" }) ∧
    (demoOneRowJob.rows.map JobRow.rowNumber).Nodup ∧
    postDecision "j" demoOneRowJob [] (some 1) "no_match" (some "abc") =
      Except.ok (demoOneRowJobNoMatch, []) ∧
    ∀ r ∈ demoOneRowJobNoMatch.rows, r.rowNumber = 1 → r.suggestions = [] := by
  refine ⟨decision_validation_and_no_match_clearing.1 "j" demoOneRowJob [] 1,
    by decide, rfl, ?_⟩
  exact decision_validation_and_no_match_clearing.2 "j" demoOneRowJob [] 1 (some "abc")
    (demoOneRowJobNoMatch, []) (by decide) rfl

/-- C10: recording a `"match"` decision whose `selectedAssetId` references
no existing catalog entry succeeds: the row is updated to the match
decision, while the catalog-side reconciled-flag update matches zero
documents, changes nothing, and raises no error. -/
theorem match_decision_with_unknown_asset (jobId : String) (job : Job)
    (catalog : List CatalogEntry) (rn : Nat) (aid : String)
    (hrow : ∃ r ∈ job.rows, r.rowNumber = rn)
    (haid : aid ≠ "")
    (habs : ∀ e ∈ catalog, e.id ≠ aid) :
    ∃ job', saveDecision jobId job catalog rn "match" (some aid) =
        Except.ok (job', catalog) ∧
      ∃ r ∈ job'.rows, r.rowNumber = rn ∧ r.decision = "match" ∧
        r.selectedAssetId = some aid := by
  rcases updateFirstRow_exists (f := applyDecision "match" (some aid)) hrow
    with ⟨rows', hup⟩
  have htruthy : truthyId (some aid) = true := by simp [truthyId, haid]
  refine ⟨{ job with rows := rows' }, ?_, ?_⟩
  · unfold saveDecision
    rw [hup]
    simp [htruthy, markReconciled_absent habs]
  · rcases updateFirstRow_eq_some hup with ⟨l1, r0, l2, hdec, hdec', hr0, hl1⟩
    refine ⟨applyDecision "match" (some aid) r0, ?_, ?_, rfl, ?_⟩
    · rw [hdec']
      exact List.mem_append_right _ (List.mem_cons_self _ _)
    · simpa [applyDecision] using hr0
    · simp [applyDecision, storedAssetId, htruthy]

/-- C10 witness: a concrete job and catalog where the referenced asset id
exists nowhere in the catalog; the decision is recorded and the catalog is
untouched. -/
theorem match_decision_with_unknown_asset_witness :
    (∃ r ∈ demoOneRowJob.rows, r.rowNumber = 1) ∧ ("X" : String) ≠ "" ∧
    (∀ e ∈ [demoFreeEntry], e.id ≠ "X") ∧
    ∃ job', saveDecision "j" demoOneRowJob [demoFreeEntry] 1 "match" (some "X") =
        Except.ok (job', [demoFreeEntry]) ∧
      ∃ r ∈ job'.rows, r.rowNumber = 1 ∧ r.decision = "match" ∧
        r.selectedAssetId = some "X" := by
  refine ⟨by decide, by decide, by decide, ?_⟩
  exact match_decision_with_unknown_asset "j" demoOneRowJob [demoFreeEntry] 1 "X"
    (by decide) (by decide) (by decide)

lemma natSeq_mem {w : Nat} : ∀ {s n : Nat}, w ∈ natSeq s n → s ≤ w ∧ w < s + n
  | s, 0, h => by simp [natSeq] at h
  | s, n + 1, h => by
    rw [natSeq] at h
    rcases List.mem_cons.1 h with rfl | h2
    · omega
    · have := natSeq_mem h2
      omega

lemma chain_le_natSeq : ∀ (n a : Nat), List.Chain' (· ≤ ·) (a :: natSeq (a + 1) n ++ [a + n])
  | 0, a => by simp [natSeq]
  | n + 1, a => by
    have ih := chain_le_natSeq n (a + 1)
    rw [natSeq]
    refine List.Chain'.cons (by omega) ?_
    simpa [Nat.add_assoc, Nat.add_comm 1 n] using ih

lemma processRowsAux_writes (env : Nat → RowOutcome) (lm : Option LocationMatch) :
    ∀ (rows : List JobRow) (i p : Nat),
      (processRowsAux env lm rows i p).2.2.1.length ≤ rows.length ∧
      (processRowsAux env lm rows i p).2.1 =
        p + (processRowsAux env lm rows i p).2.2.1.length ∧
      (processRowsAux env lm rows i p).2.2.1 =
        natSeq (p + 1) (processRowsAux env lm rows i p).2.2.1.length
  | [], i, p => by simp [processRowsAux, natSeq]
  | row :: rest, i, p => by
    by_cases hdesc : normalizeText row.sapDescription = ""
    · have ih := processRowsAux_writes env lm rest (i + 1) p
      rcases hrec : processRowsAux env lm rest (i + 1) p with ⟨rest', p2, ws, es⟩
      rw [hrec] at ih
      simp only [processRowsAux, if_pos hdesc, hrec]
      refine ⟨Nat.le_succ_of_le ih.1, ih.2.1, ih.2.2⟩
    · cases henv : env i with
      | fail =>
        have ih := processRowsAux_writes env lm rest (i + 1) p
        rcases hrec : processRowsAux env lm rest (i + 1) p with ⟨rest', p2, ws, es⟩
        rw [hrec] at ih
        simp only [processRowsAux, if_neg hdesc, henv, hrec]
        refine ⟨Nat.le_succ_of_le ih.1, ih.2.1, ih.2.2⟩
      | search raw =>
        have ih := processRowsAux_writes env lm rest (i + 1) (p + 1)
        rcases hrec : processRowsAux env lm rest (i + 1) (p + 1) with ⟨rest', p2, ws, es⟩
        rw [hrec] at ih
        dsimp only at ih
        simp only [processRowsAux, if_neg hdesc, henv, hrec]
        refine ⟨by simpa using Nat.succ_le_succ ih.1, ?_, ?_⟩
        · simp only [List.length_cons]
          omega
        · simp only [List.length_cons, natSeq]
          exact congrArg _ ih.2.2

lemma processRowsAux_embedded_lb (env : Nat → RowOutcome) (lm : Option LocationMatch) :
    ∀ (rows : List JobRow) (i p : Nat) (j : Nat),
      j ∈ (processRowsAux env lm rows i p).2.2.2 → i ≤ j
  | [], i, p, j => by simp [processRowsAux]
  | row :: rest, i, p, j => by
    intro hmem
    by_cases hdesc : normalizeText row.sapDescription = ""
    · rcases hrec : processRowsAux env lm rest (i + 1) p with ⟨rest', p2, ws, es⟩
      rw [processRowsAux, if_pos hdesc, hrec] at hmem
      have := processRowsAux_embedded_lb env lm rest (i + 1) p j (by rw [hrec]; exact hmem)
      omega
    · cases henv : env i with
      | fail =>
        rcases hrec : processRowsAux env lm rest (i + 1) p with ⟨rest', p2, ws, es⟩
        rw [processRowsAux, if_neg hdesc] at hmem
        simp only [henv, hrec] at hmem
        rcases List.mem_cons.1 hmem with rfl | h2
        · exact Nat.le_refl j
        · have := processRowsAux_embedded_lb env lm rest (i + 1) p j (by rw [hrec]; exact h2)
          omega
      | search raw =>
        rcases hrec : processRowsAux env lm rest (i + 1) (p + 1) with ⟨rest', p2, ws, es⟩
        rw [processRowsAux, if_neg hdesc] at hmem
        simp only [henv, hrec] at hmem
        rcases List.mem_cons.1 hmem with rfl | h2
        · exact Nat.le_refl j
        · have := processRowsAux_embedded_lb env lm rest (i + 1) (p + 1) j
            (by rw [hrec]; exact h2)
          omega

lemma processRowsAux_embedded_sorted (env : Nat → RowOutcome) (lm : Option LocationMatch) :
    ∀ (rows : List JobRow) (i p : Nat),
      (processRowsAux env lm rows i p).2.2.2.Pairwise (· < ·)
  | [], i, p => by simp [processRowsAux]
  | row :: rest, i, p => by
    by_cases hdesc : normalizeText row.sapDescription = ""
    · rcases hrec : processRowsAux env lm rest (i + 1) p with ⟨rest', p2, ws, es⟩
      have ih := processRowsAux_embedded_sorted env lm rest (i + 1) p
      rw [hrec] at ih
      simpa [processRowsAux, if_pos hdesc, hrec] using ih
    · cases henv : env i with
      | fail =>
        rcases hrec : processRowsAux env lm rest (i + 1) p with ⟨rest', p2, ws, es⟩
        have ih := processRowsAux_embedded_sorted env lm rest (i + 1) p
        rw [hrec] at ih
        have hlb := processRowsAux_embedded_lb env lm rest (i + 1) p
        rw [hrec] at hlb
        simp only [processRowsAux, if_neg hdesc, henv, hrec]
        exact List.Pairwise.cons (fun j hj => by have := hlb j hj; omega) ih
      | search raw =>
        rcases hrec : processRowsAux env lm rest (i + 1) (p + 1) with ⟨rest', p2, ws, es⟩
        have ih := processRowsAux_embedded_sorted env lm rest (i + 1) (p + 1)
        rw [hrec] at ih
        have hlb := processRowsAux_embedded_lb env lm rest (i + 1) (p + 1)
        rw [hrec] at hlb
        simp only [processRowsAux, if_neg hdesc, henv, hrec]
        exact List.Pairwise.cons (fun j hj => by have := hlb j hj; omega) ih

/-- C4: within one `processJob` run on a freshly created job, the observed
`processedRows` sequence (initial value followed by every written value) is
non-decreasing and never exceeds `totalRows`, and no row's external calls
run twice (the visited row indices are pairwise distinct). -/
theorem processed_rows_monotone (env : Nat → RowOutcome) (job : Job)
    (htot : job.totalRows = job.rows.length) (hinit : job.processedRows = 0) :
    ∀ out, processJob env job = Except.ok out →
      List.Chain' (· ≤ ·) (job.processedRows :: out.writes) ∧
      (∀ w ∈ out.writes, w ≤ job.totalRows) ∧
      out.embedded.Nodup := by
  intro out h
  by_cases hst : job.status = "completed"
  · rw [processJob, if_pos hst] at h
    exact absurd h (by simp)
  · rw [processJob, if_neg hst] at h
    have hw := processRowsAux_writes env (jobLocationMatch job) job.rows 0 0
    have hs := processRowsAux_embedded_sorted env (jobLocationMatch job) job.rows 0 0
    rcases hrec : processRowsAux env (jobLocationMatch job) job.rows 0 0
      with ⟨rows', p, ws, es⟩
    rw [hrec] at hw hs h
    dsimp only at hw hs h
    have hout : out =
        ⟨{ job with status := "completed", processedRows := p, rows := rows' },
         ws ++ [p], es⟩ :=
      (Except.ok.inj h).symm
    subst hout
    simp only [hinit]
    rcases hw with ⟨hlen, hp, hws⟩
    refine ⟨?_, ?_, ?_⟩
    · rw [hws, hp]
      simpa using chain_le_natSeq ws.length 0
    · intro w hw2
      rcases List.mem_append.1 hw2 with h1 | h2
      · rw [hws] at h1
        have := natSeq_mem h1
        omega
      · have : w = p := by simpa using h2
        omega
    · exact hs.imp Nat.ne_of_lt

/-- C4 witness: a concrete run (one embeddable row, one whitespace row) with
its full write and visit trace. -/
theorem processed_rows_monotone_witness :
    demoRunJob.totalRows = demoRunJob.rows.length ∧
    demoRunJob.processedRows = 0 ∧
    processJob demoEnv demoRunJob = Except.ok demoRunResult ∧
    (List.Chain' (· ≤ ·) (demoRunJob.processedRows :: demoRunResult.writes) ∧
     (∀ w ∈ demoRunResult.writes, w ≤ demoRunJob.totalRows) ∧
     demoRunResult.embedded.Nodup) := by
  refine ⟨by decide, by decide, rfl, ?_⟩
  exact processed_rows_monotone demoEnv demoRunJob (by decide) (by decide) demoRunResult rfl

lemma parseRegexBody_escaped :
    ∀ (l r : List Char),
      parseRegexBody
          ((l.flatMap fun c => if isRegexSpecial c then ['\\', c] else [c]) ++ r) =
        (parseRegexBody r).map (fun ts => l.map RegexTok.lit ++ ts)
  | [], r => by simp
  | c :: l, r => by
    have ih := parseRegexBody_escaped l r
    by_cases hc : isRegexSpecial c
    · simp only [List.flatMap_cons, if_pos hc, List.cons_append]
      show Option.map (fun x => RegexTok.lit c :: x)
          (parseRegexBody
            ((l.flatMap fun c => if isRegexSpecial c then ['\\', c] else [c]) ++ r)) =
        Option.map (fun ts => (c :: l).map RegexTok.lit ++ ts) (parseRegexBody r)
      rw [ih, Option.map_map]
      rfl
    · have hbs : ¬ c = '\\' := fun h => hc (by rw [h]; rfl)
      have hdot : ¬ c = '.' := fun h => hc (by rw [h]; rfl)
      simp only [List.flatMap_cons, if_neg hc, List.cons_append, List.singleton_append]
      rw [parseRegexBody.eq_def]
      simp only [if_neg hbs, if_neg hdot, if_neg hc, List.nil_append]
      rw [ih, Option.map_map]
      rfl

lemma toksAccept_lits : ∀ (l xs : List Char),
    toksAccept (l.map RegexTok.lit) xs = l.isPrefixOf xs
  | [], xs => by simp [toksAccept, List.isPrefixOf]
  | c :: l, [] => by simp [toksAccept, List.isPrefixOf]
  | c :: l, x :: xs => by
    by_cases hcx : c = x
    · simp [toksAccept, List.isPrefixOf, hcx, toksAccept_lits l xs]
    · simp [toksAccept, List.isPrefixOf, hcx, Ne.symm hcx]

lemma jsTrim_of_all_ws {P : String} (h : ∀ c ∈ P.data, isWsChar c = true) :
    jsTrim P = "" := by
  have h1 : P.data.dropWhile isWsChar = [] := List.dropWhile_eq_nil_iff.2 h
  unfold jsTrim jsTrimList dropWs
  rw [h1]
  rfl

/-- C7: the built location filter accepts exactly the entries whose
location path equals the (trimmed) input or starts with it followed by the
`/` delimiter, with the input treated literally (every regex metacharacter
escaped); and empty or whitespace-only input builds no filter. -/
theorem location_filter_hierarchy_semantics :
    (∀ P : String, (∀ c ∈ P.data, isWsChar c = true) → buildLocationMatch P = none) ∧
    (∀ (P : String) (m : LocationMatch) (path : String),
      jsTrim P = P → P ≠ "" → buildLocationMatch P = some m →
      (locationMatchAccepts m path = true ↔
        path = P ∨ ((P ++ "/").data).isPrefixOf path.data = true)) := by
  constructor
  · intro P h
    rw [buildLocationMatch]
    simp [jsTrim_of_all_ws h]
  · intro P m path htrim hne hbuild
    rw [buildLocationMatch] at hbuild
    rw [htrim] at hbuild
    rw [if_neg hne] at hbuild
    have hm : m = { exactPath := P, regexPattern := "^" ++ escapeRegex P ++ "/" } :=
      (Option.some.inj hbuild).symm
    subst hm
    have hdata : ("^" ++ escapeRegex P ++ "/").data =
        '^' :: ((escapeRegex P).data ++ ['/']) := by
      rw [String.data_append, String.data_append]
      rfl
    have hparse : parseRegexBody ((escapeRegex P).data ++ ['/']) =
        some ((P.data ++ ['/']).map RegexTok.lit) := by
      have h2 : (escapeRegex P).data =
          P.data.flatMap fun c => if isRegexSpecial c then ['\\', c] else [c] := rfl
      rw [h2, parseRegexBody_escaped]
      have h3 : parseRegexBody ['/'] = some [RegexTok.lit '/'] := by decide
      rw [h3, Option.map_some']
      simp
    have haccept : anchoredRegexTest ("^" ++ escapeRegex P ++ "/") path =
        (P.data ++ ['/']).isPrefixOf path.data := by
      rw [anchoredRegexTest]
      rw [hdata]
      simp only [hparse]
      exact toksAccept_lits _ _
    rw [locationMatchAccepts]
    simp only at haccept ⊢
    rw [haccept]
    rw [Bool.or_eq_true, decide_eq_true_eq]
    constructor
    · rintro (h | h)
      · exact Or.inl h
      · refine Or.inr ?_
        rw [String.data_append]
        exact h
    · rintro (h | h)
      · exact Or.inl h
      · refine Or.inr ?_
        rw [String.data_append] at h
        exact h

/-- C7 witness: the filter built from `"Site/BuildingA"` accepts
`"Site/BuildingA"` and `"Site/BuildingA/Floor1"` and rejects
`"Site/BuildingAAnnex"` and `"Site"`. -/
theorem location_filter_hierarchy_witness :
    jsTrim "Site/BuildingA" = "Site/BuildingA" ∧
    buildLocationMatch "Site/BuildingA" =
      some { exactPath := "Site/BuildingA", regexPattern := "^Site/BuildingA/" } ∧
    locationMatchAccepts
      { exactPath := "Site/BuildingA", regexPattern := "^Site/BuildingA/" }
      "Site/BuildingA" = true ∧
    locationMatchAccepts
      { exactPath := "Site/BuildingA", regexPattern := "^Site/BuildingA/" }
      "Site/BuildingA/Floor1" = true ∧
    locationMatchAccepts
      { exactPath := "Site/BuildingA", regexPattern := "^Site/BuildingA/" }
      "Site/BuildingAAnnex" = false ∧
    locationMatchAccepts
      { exactPath := "Site/BuildingA", regexPattern := "^Site/BuildingA/" }
      "Site" = false := by
  have h := location_filter_hierarchy_semantics.2 "Site/BuildingA"
    { exactPath := "Site/BuildingA", regexPattern := "^Site/BuildingA/" }
  refine ⟨by decide, by decide, ?_, ?_, by decide, by decide⟩
  · exact (h "Site/BuildingA" (by decide) (by decide) (by decide)).2 (Or.inl rfl)
  · exact (h "Site/BuildingA/Floor1" (by decide) (by decide) (by decide)).2
      (Or.inr (by decide))

/-- C9 counterexample: recording `"no_match"` together with a non-null
`selectedAssetId` stores the id on the row, so after the operation a row
has a non-null `selectedAssetId` with a decision other than `"match"`. -/
theorem selected_asset_iff_match_counterexample :
    jobInvariant demoOneRowJob ∧
    postDecision "j" demoOneRowJob [] (some 1) "no_match" (some "abc") =
      Except.ok (demoOneRowJobNoMatch, []) ∧
    ¬ jobInvariant demoOneRowJobNoMatch := by
  refine ⟨by decide, rfl, by decide⟩

lemma processRowsAux_rows_source (env : Nat → RowOutcome) (lm : Option LocationMatch) :
    ∀ (rows : List JobRow) (i p : Nat),
      ∀ r' ∈ (processRowsAux env lm rows i p).1,
        ∃ r ∈ rows, r'.decision = r.decision ∧ r'.selectedAssetId = r.selectedAssetId
  | [], i, p => by simp [processRowsAux]
  | row :: rest, i, p => by
    intro r' hr'
    by_cases hdesc : normalizeText row.sapDescription = ""
    · rcases hrec : processRowsAux env lm rest (i + 1) p with ⟨rest', p2, ws, es⟩
      rw [processRowsAux, if_pos hdesc, hrec] at hr'
      rcases List.mem_cons.1 hr' with rfl | h2
      · exact ⟨_, List.mem_cons_self _ _, rfl, rfl⟩
      · rcases processRowsAux_rows_source env lm rest (i + 1) p r'
            (by rw [hrec]; exact h2) with ⟨r, hr, h⟩
        exact ⟨r, List.mem_cons_of_mem _ hr, h⟩
    · cases henv : env i with
      | fail =>
        rcases hrec : processRowsAux env lm rest (i + 1) p with ⟨rest', p2, ws, es⟩
        rw [processRowsAux, if_neg hdesc] at hr'
        simp only [henv, hrec] at hr'
        rcases List.mem_cons.1 hr' with rfl | h2
        · exact ⟨_, List.mem_cons_self _ _, rfl, rfl⟩
        · rcases processRowsAux_rows_source env lm rest (i + 1) p r'
              (by rw [hrec]; exact h2) with ⟨r, hr, h⟩
          exact ⟨r, List.mem_cons_of_mem _ hr, h⟩
      | search raw =>
        rcases hrec : processRowsAux env lm rest (i + 1) (p + 1) with ⟨rest', p2, ws, es⟩
        rw [processRowsAux, if_neg hdesc] at hr'
        simp only [henv, hrec] at hr'
        rcases List.mem_cons.1 hr' with rfl | h2
        · exact ⟨_, List.mem_cons_self _ _, rfl, rfl⟩
        · rcases processRowsAux_rows_source env lm rest (i + 1) (p + 1) r'
              (by rw [hrec]; exact h2) with ⟨r, hr, h⟩
          exact ⟨r, List.mem_cons_of_mem _ hr, h⟩

lemma saveDecision_preserves_invariant {jobId : String} {job : Job}
    {catalog : List CatalogEntry} {rn : Nat} {d : String} {sel : Option String}
    (hinv : jobInvariant job)
    (hcond : (storedAssetId sel).isSome = true ↔ d = "match") :
    ∀ {job' catalog'},
      saveDecision jobId job catalog rn d sel = Except.ok (job', catalog') →
      jobInvariant job' := by
  intro job' catalog' h
  unfold saveDecision at h
  rcases hup : updateFirstRow rn (applyDecision d sel) job.rows with _ | rows'
  · rw [hup] at h
    exact absurd h (by simp)
  · rw [hup] at h
    have hpair := Except.ok.inj h
    have h1 : ({ job with rows := rows' } : Job) = job' := congrArg Prod.fst hpair
    have hjob : job'.rows = rows' := by rw [← h1]
    rcases updateFirstRow_eq_some hup with ⟨l1, r0, l2, hdec, hdec', _, _⟩
    intro r hr
    rw [hjob, hdec'] at hr
    rcases List.mem_append.1 hr with h1 | h2
    · exact hinv r (by rw [hdec]; exact List.mem_append_left _ h1)
    · rcases List.mem_cons.1 h2 with rfl | h3
      · unfold rowInvariant applyDecision
        simpa using hcond
      · exact hinv r (by
          rw [hdec]
          exact List.mem_append_right _ (List.mem_cons_of_mem _ h3))

lemma pickCandidate_props {minScore : ℚ} {assigned : List String}
    {suggestions : List Suggestion} {c : Suggestion}
    (h : pickCandidate minScore assigned suggestions = some c) :
    c.assetId ≠ "" ∧ c.assetId ∉ assigned := by
  have hp := List.find?_some h
  simp only [Bool.and_eq_true, decide_eq_true_eq, Bool.not_eq_true'] at hp
  refine ⟨hp.1.1.1, ?_⟩
  intro hmem
  have hc : assigned.contains c.assetId = true := by
    have : assigned.elem c.assetId = true := List.elem_iff.2 hmem
    simpa [List.contains] using this
  rw [hc] at hp
  exact absurd hp.1.2 (by simp)

lemma autoReconcileLoop_invariant (jobId : String) (minScore : ℚ) :
    ∀ (rows : List JobRow) (job : Job) (cat : List CatalogEntry)
      (assigned : List String) (n : Nat) (out : Job × List CatalogEntry × Nat),
      jobInvariant job →
      autoReconcileLoop jobId minScore rows job cat assigned n = Except.ok out →
      jobInvariant out.1
  | [], job, cat, assigned, n, out => by
    intro hinv h
    rw [autoReconcileLoop] at h
    have : job = out.1 := by
      rw [← Except.ok.inj h]
    rw [← this]
    exact hinv
  | row :: rest, job, cat, assigned, n, out => by
    intro hinv h
    rw [autoReconcileLoop] at h
    by_cases hemp : row.suggestions.isEmpty
    · rw [if_pos hemp] at h
      exact autoReconcileLoop_invariant jobId minScore rest job cat assigned n out hinv h
    · rw [if_neg hemp] at h
      rcases hpick : pickCandidate minScore assigned row.suggestions with _ | c
      · rw [hpick] at h
        dsimp only at h
        exact autoReconcileLoop_invariant jobId minScore rest job cat assigned n out hinv h
      · rw [hpick] at h
        dsimp only at h
        rcases hsd : saveDecision jobId job cat row.rowNumber "match" (some c.assetId)
          with e | p
        · rw [hsd] at h
          exact absurd h (by simp)
        · rw [hsd] at h
          rcases p with ⟨job2, cat2⟩
          have haid := (pickCandidate_props hpick).1
          have hinv2 : jobInvariant job2 :=
            saveDecision_preserves_invariant hinv
              (by simp [storedAssetId, truthyId, haid]) hsd
          exact autoReconcileLoop_invariant jobId minScore rest job2 cat2
            (c.assetId :: assigned) (n + 1) out hinv2 h

/-- C9 (amended): `selectedAssetId` non-null iff decision `"match"` holds
after job creation and is preserved by processing, by auto-reconcile, and
by `setDecision` provided callers pass a null `selectedAssetId` for
non-match decisions; `setDecision` with a non-match decision and a non-null
`selectedAssetId` stores the id and breaks the equivalence (see the
counterexample). -/
theorem selected_asset_iff_match_invariant :
    (∀ (rows : List InputRow) (lf : Option String), jobInvariant (createJob rows lf)) ∧
    (∀ (env : Nat → RowOutcome) (job : Job) (out : ProcessResult),
      jobInvariant job → processJob env job = Except.ok out → jobInvariant out.job) ∧
    (∀ (jobId : String) (job : Job) (catalog : List CatalogEntry) (rn : Nat)
        (d : String) (sel : Option String) (out : Job × List CatalogEntry),
      jobInvariant job → (d ≠ "match" → sel = none) →
      postDecision jobId job catalog (some rn) d sel = Except.ok out →
      jobInvariant out.1) ∧
    (∀ (jobId : String) (job : Job) (catalog : List CatalogEntry) (minScore : ℚ)
        (out : Job × List CatalogEntry × Nat),
      jobInvariant job →
      autoReconcileJob jobId job catalog minScore = Except.ok out →
      jobInvariant out.1) := by
  refine ⟨?_, ?_, ?_, ?_⟩
  · intro rows lf r hr
    rcases List.mem_map.1 hr with ⟨r0, _, rfl⟩
    simp [rowInvariant]
  · intro env job out hinv h
    by_cases hst : job.status = "completed"
    · rw [processJob, if_pos hst] at h
      exact absurd h (by simp)
    · rw [processJob, if_neg hst] at h
      rcases hrec : processRowsAux env (jobLocationMatch job) job.rows 0 0
        with ⟨rows', p, ws, es⟩
      rw [hrec] at h
      dsimp only at h
      have hsrc := processRowsAux_rows_source env (jobLocationMatch job) job.rows 0 0
      rw [hrec] at hsrc
      intro r hr
      have hrows : out.job.rows = rows' := by
        rw [← Except.ok.inj h]
      rw [hrows] at hr
      rcases hsrc r hr with ⟨r0, hr0, hd, hs⟩
      unfold rowInvariant
      rw [hd, hs]
      exact hinv r0 hr0
  · intro jobId job catalog rn d sel out hinv hnull hpost
    by_cases hvalid : List.contains ["match", "no_match", "pending"] d
    · rw [postDecision] at hpost
      rw [if_neg (by rw [hvalid]; simp)] at hpost
      by_cases hd : d = "match"
      · by_cases htr : truthyId sel
        · rw [if_neg (by simp [hd, htr])] at hpost
          rcases hsd : saveDecision jobId job catalog rn d
            (if truthyId sel then sel else none) with e | p
          · rw [hsd] at hpost
            exact absurd hpost (by simp)
          · rw [hsd] at hpost
            rcases p with ⟨job2, cat2⟩
            have : out = (job2, cat2) := by
              have := Except.ok.inj hpost
              rw [← this]
            rw [this]
            refine saveDecision_preserves_invariant hinv ?_ hsd
            rw [if_pos htr]
            cases sel with
            | none => exact absurd htr (by simp [truthyId])
            | some s =>
              have hs : s ≠ "" := by simpa [truthyId] using htr
              simp [storedAssetId, truthyId, hs, hd]
        · rw [if_pos (by simp [hd, htr])] at hpost
          exact absurd hpost (by simp)
      · rw [if_neg (by simp [hd])] at hpost
        have hsel : sel = none := hnull hd
        subst hsel
        rcases hsd : saveDecision jobId job catalog rn d
          (if truthyId none then none else none) with e | p
        · rw [hsd] at hpost
          exact absurd hpost (by simp)
        · rw [hsd] at hpost
          rcases p with ⟨job2, cat2⟩
          have : out = (job2, cat2) := by
            have := Except.ok.inj hpost
            rw [← this]
          rw [this]
          refine saveDecision_preserves_invariant hinv ?_ hsd
          simp [storedAssetId, truthyId, hd]
    · have hcf : List.contains ["match", "no_match", "pending"] d = false :=
        Bool.eq_false_iff.2 hvalid
      rw [postDecision, if_pos (by rw [hcf]; rfl)] at hpost
      exact absurd hpost (by simp)
  · intro jobId job catalog minScore out hinv h
    unfold autoReconcileJob at h
    exact autoReconcileLoop_invariant jobId minScore _ job catalog
      (matchAssetIds job.rows) 0 out hinv h

/-- C9 witness for the amended theorem: a fresh job satisfies the
invariant, and a well-formed `"match"` decision preserves it. -/
theorem selected_asset_iff_match_invariant_witness :
    jobInvariant demoOneRowJob ∧
    postDecision "j" demoOneRowJob [] (some 1) "match" (some "A") =
      Except.ok (demoOneRowJobMatched, []) ∧
    jobInvariant demoOneRowJobMatched ∧
    jobInvariant (createJob [{ rowNumber := 1, sapDescription := some "x", sapLocation := none }] none) := by
  refine ⟨by decide, rfl, ?_, ?_⟩
  · exact selected_asset_iff_match_invariant.2.2.1 "j" demoOneRowJob [] 1 "match"
      (some "A") (demoOneRowJobMatched, []) (by decide)
      (fun hd => absurd rfl hd) rfl
  · exact selected_asset_iff_match_invariant.1
      [{ rowNumber := 1, sapDescription := some "x", sapLocation := none }] none

lemma matchAssetIds_append (l1 l2 : List JobRow) :
    matchAssetIds (l1 ++ l2) = matchAssetIds l1 ++ matchAssetIds l2 :=
  List.filterMap_append l1 l2 _

lemma saveDecision_match_ids {jobId : String} {job : Job} {catalog : List CatalogEntry}
    {rn : Nat} {aid : String} (haid : aid ≠ "") :
    ∀ {job' catalog'},
      saveDecision jobId job catalog rn "match" (some aid) = Except.ok (job', catalog') →
      ∃ A C B, matchAssetIds job.rows = (A ++ C) ++ B ∧
        matchAssetIds job'.rows = (A ++ [aid]) ++ B := by
  intro job' catalog' h
  unfold saveDecision at h
  rcases hup : updateFirstRow rn (applyDecision "match" (some aid)) job.rows with _ | rows'
  · rw [hup] at h
    exact absurd h (by simp)
  · rw [hup] at h
    have hpair := Except.ok.inj h
    have h1 : ({ job with rows := rows' } : Job) = job' := congrArg Prod.fst hpair
    have hjob : job'.rows = rows' := by rw [← h1]
    rcases updateFirstRow_eq_some hup with ⟨l1, r0, l2, hdec, hdec', hr0, _⟩
    refine ⟨matchAssetIds l1, matchAssetIds [r0], matchAssetIds l2, ?_, ?_⟩
    · rw [hdec, show l1 ++ r0 :: l2 = (l1 ++ [r0]) ++ l2 by simp,
        matchAssetIds_append, matchAssetIds_append]
    · rw [hjob, hdec',
        show l1 ++ applyDecision "match" (some aid) r0 :: l2 =
          (l1 ++ [applyDecision "match" (some aid) r0]) ++ l2 by simp,
        matchAssetIds_append, matchAssetIds_append]
      have hone : matchAssetIds [applyDecision "match" (some aid) r0] = [aid] := by
        simp [matchAssetIds, applyDecision, storedAssetId, truthyId, haid]
      rw [hone]

lemma autoReconcileLoop_nodup (jobId : String) (minScore : ℚ) :
    ∀ (rows : List JobRow) (job : Job) (cat : List CatalogEntry)
      (assigned : List String) (n : Nat) (out : Job × List CatalogEntry × Nat),
      (∀ id ∈ matchAssetIds job.rows, id ∈ assigned) →
      (matchAssetIds job.rows).Nodup →
      autoReconcileLoop jobId minScore rows job cat assigned n = Except.ok out →
      (matchAssetIds out.1.rows).Nodup
  | [], job, cat, assigned, n, out => fun _ hnd h => by
    rw [autoReconcileLoop] at h
    have hj : job = out.1 := by rw [← Except.ok.inj h]
    rw [← hj]
    exact hnd
  | row :: rest, job, cat, assigned, n, out => fun hsub hnd h => by
    rw [autoReconcileLoop] at h
    by_cases hemp : row.suggestions.isEmpty
    · rw [if_pos hemp] at h
      exact autoReconcileLoop_nodup jobId minScore rest job cat assigned n out hsub hnd h
    · rw [if_neg hemp] at h
      rcases hpick : pickCandidate minScore assigned row.suggestions with _ | c
      · rw [hpick] at h
        dsimp only at h
        exact autoReconcileLoop_nodup jobId minScore rest job cat assigned n out hsub hnd h
      · rw [hpick] at h
        dsimp only at h
        rcases hsd : saveDecision jobId job cat row.rowNumber "match" (some c.assetId)
          with e | p
        · rw [hsd] at h
          exact absurd h (by simp)
        · rw [hsd] at h
          rcases p with ⟨job2, cat2⟩
          obtain ⟨haid, hnotmem⟩ := pickCandidate_props hpick
          rcases saveDecision_match_ids haid hsd with ⟨A, C, B, hold, hnew⟩
          have hAB_sub : ∀ id ∈ A ++ B, id ∈ assigned := by
            intro id hid
            rcases List.mem_append.1 hid with h1 | h1
            · exact hsub id
                (by rw [hold]; exact List.mem_append_left _ (List.mem_append_left _ h1))
            · exact hsub id (by rw [hold]; exact List.mem_append_right _ h1)
          have hABnd : (A ++ B).Nodup := by
            have hsl : List.Sublist (A ++ B) ((A ++ C) ++ B) := by
              rw [List.append_assoc]
              exact (List.sublist_append_right C B).append_left A
            exact (hold ▸ hnd).sublist hsl
          have haid_nm : c.assetId ∉ A ++ B := fun hmem => hnotmem (hAB_sub _ hmem)
          have hnew_nd : (matchAssetIds job2.rows).Nodup := by
            rw [hnew, show (A ++ [c.assetId]) ++ B = A ++ c.assetId :: B by simp]
            exact List.nodup_middle.2 (List.nodup_cons.2 ⟨haid_nm, hABnd⟩)
          have hnew_sub : ∀ id ∈ matchAssetIds job2.rows, id ∈ c.assetId :: assigned := by
            intro id hid
            rw [hnew, show (A ++ [c.assetId]) ++ B = A ++ c.assetId :: B by simp] at hid
            rcases List.mem_append.1 hid with h1 | h1
            · exact List.mem_cons_of_mem _ (hAB_sub id (List.mem_append_left _ h1))
            · rcases List.mem_cons.1 h1 with rfl | h2
              · exact List.mem_cons_self _ _
              · exact List.mem_cons_of_mem _ (hAB_sub id (List.mem_append_right _ h2))
          exact autoReconcileLoop_nodup jobId minScore rest job2 cat2
            (c.assetId :: assigned) (n + 1) out hnew_sub hnew_nd h

/-- C1: one invocation of `autoReconcileJob` never assigns a catalog entry
id to more than one row — starting from distinct existing match
assignments, the match-row asset ids are still pairwise distinct after the
run (the assigned set is seeded with existing match ids, rows are processed
by descending best score, and each row takes its best candidate with score
≥ `minScore` that is unassigned and not reconciled). -/
theorem auto_reconcile_no_duplicate (jobId : String) (job : Job)
    (catalog : List CatalogEntry) (minScore : ℚ)
    (h : (matchAssetIds job.rows).Nodup) :
    ∀ out, autoReconcileJob jobId job catalog minScore = Except.ok out →
      (matchAssetIds out.1.rows).Nodup := by
  intro out hout
  unfold autoReconcileJob at hout
  exact autoReconcileLoop_nodup jobId minScore _ job catalog
    (matchAssetIds job.rows) 0 out (fun _ hid => hid) h hout

/-- C1 witness: two rows share top candidate `"A"` (scores 0.95 and 0.90,
both ≥ `minScore = 0.8`); exactly one row ends matched on `"A"` and the
other takes its next-best distinct candidate `"C"`, with no duplicate
assignment. -/
theorem auto_reconcile_no_duplicate_witness :
    (matchAssetIds demoContendedJob.rows).Nodup ∧
    autoReconcileJob "j" demoContendedJob [] (mkRat 4 5) =
      Except.ok (demoContendedResultJob, [], 2) ∧
    (matchAssetIds demoContendedResultJob.rows).Nodup ∧
    demoContendedResultJob.rows.map (fun r => (r.rowNumber, r.decision, r.selectedAssetId)) =
      [(1, "match", some "C"), (2, "match", some "A")] := by
  refine ⟨by decide, by decide, ?_, by decide⟩
  exact auto_reconcile_no_duplicate "j" demoContendedJob [] (mkRat 4 5) (by decide)
    (demoContendedResultJob, [], 2) (by decide)

lemma insertByIdAsc_perm : ∀ (x : BackfillAsset) (l : List BackfillAsset),
    List.Perm (insertByIdAsc x l) (x :: l)
  | _, [] => List.Perm.refl _
  | x, y :: ys => by
    rw [insertByIdAsc]
    by_cases h : x.id ≤ y.id
    · rw [if_pos h]
    · rw [if_neg h]
      exact ((insertByIdAsc_perm x ys).cons y).trans (List.Perm.swap x y ys)

lemma sortByIdAsc_perm : ∀ (l : List BackfillAsset), List.Perm (sortByIdAsc l) l
  | [] => List.Perm.refl _
  | x :: l => by
    rw [sortByIdAsc, List.foldr_cons]
    exact (insertByIdAsc_perm x _).trans ((sortByIdAsc_perm l).cons x)

lemma fetchBatch_mem {batchSize : Nat} {catalog : List BackfillAsset}
    {a : BackfillAsset} (h : a ∈ fetchBatch batchSize catalog) :
    a ∈ catalog ∧ isPending a = true := by
  unfold fetchBatch at h
  have h2 := (sortByIdAsc_perm _).mem_iff.1 (List.mem_of_mem_take h)
  exact ⟨(List.mem_filter.1 h2).1, (List.mem_filter.1 h2).2⟩

lemma fetchBatch_eq_nil_iff {batchSize : Nat} (hb : 1 ≤ batchSize)
    (catalog : List BackfillAsset) :
    fetchBatch batchSize catalog = [] ↔ catalog.filter isPending = [] := by
  unfold fetchBatch
  rw [List.take_eq_nil_iff]
  constructor
  · rintro (h | h)
    · omega
    · have := (sortByIdAsc_perm (catalog.filter isPending)).length_eq
      rw [h] at this
      exact List.length_eq_zero.1 this.symm
  · intro h
    rw [h]
    exact Or.inr rfl

lemma skipFn_textEmbedding (ids : List Nat) (a : BackfillAsset) :
    (skipFn ids a).textEmbedding = a.textEmbedding := by
  unfold skipFn
  split <;> rfl

lemma pending_skipFn {ids : List Nat} {a : BackfillAsset}
    (h : isPending (skipFn ids a) = true) : skipFn ids a = a := by
  unfold skipFn at h ⊢
  by_cases hc : (ids.contains a.id && a.textEmbedding.isNone) = true
  · rw [if_pos hc] at h
    simp [isPending] at h
  · rw [if_neg hc]

lemma skipFn_id (ids : List Nat) (a : BackfillAsset) : (skipFn ids a).id = a.id := by
  unfold skipFn
  split <;> rfl

lemma pending_embedFn {embedOf : String → List ℚ} {items : List (Nat × String)}
    {a : BackfillAsset} (h : isPending (embedFn embedOf items a) = true) :
    embedFn embedOf items a = a := by
  unfold embedFn at h ⊢
  rcases hf : List.find? (fun it => (it.1 = a.id : Bool)) items with _ | it
  · rw [hf] at h ⊢
  · rw [hf] at h ⊢
    dsimp only at h ⊢
    by_cases hte : a.textEmbedding.isNone
    · rw [if_pos hte] at h
      simp [isPending] at h
    · rw [if_neg hte] at h ⊢

lemma embedFn_not_pending {embedOf : String → List ℚ} {items : List (Nat × String)}
    {a : BackfillAsset} (h : isPending a = false) :
    isPending (embedFn embedOf items a) = false := by
  cases hval : isPending (embedFn embedOf items a) with
  | false => rfl
  | true =>
    rw [pending_embedFn hval] at hval
    rw [hval] at h
    cases h

lemma pending_gFn {embedOf : String → List ℚ} {items : List (Nat × String)}
    {ids : List Nat} {a : BackfillAsset}
    (h : isPending (embedFn embedOf items (skipFn ids a)) = true) :
    isPending a = true := by
  have h1 := pending_embedFn h
  rw [h1] at h
  have h2 := pending_skipFn h
  rw [h2] at h
  exact h

lemma gFn_not_pending {embedOf : String → List ℚ} {items : List (Nat × String)}
    {ids : List Nat} {a : BackfillAsset}
    (hpend : isPending a = true)
    (hcase : ids.contains a.id = true ∨ ∃ it ∈ items, it.1 = a.id) :
    isPending (embedFn embedOf items (skipFn ids a)) = false := by
  have hte : a.textEmbedding = none := by
    unfold isPending at hpend
    simp only [Bool.and_eq_true, Option.isNone_iff_eq_none] at hpend
    exact hpend.1
  rcases hcase with hskip | ⟨it, hit, hid⟩
  · have hb1 : skipFn ids a = { a with embeddingSkipReason := some "missing_name" } := by
      unfold skipFn
      rw [if_pos (by rw [hskip, hte]; rfl)]
    refine embedFn_not_pending ?_
    rw [hb1]
    simp [isPending]
  · have hid1 : (skipFn ids a).id = a.id := skipFn_id ids a
    have hte1 : (skipFn ids a).textEmbedding = none := by
      rw [skipFn_textEmbedding, hte]
    unfold embedFn
    have hfind : (List.find? (fun it => (it.1 = (skipFn ids a).id : Bool)) items).isSome
        = true :=
      List.find?_isSome.2 ⟨it, hit, by simp [hid, hid1]⟩
    rcases hf : List.find? (fun it => (it.1 = (skipFn ids a).id : Bool)) items with _ | it2
    · rw [hf] at hfind
      simp at hfind
    · rw [hf]
      dsimp only
      rw [if_pos (by rw [hte1]; rfl)]
      simp [isPending]

lemma countP_lt_of_witness {α : Type} {l : List α} {p q : α → Bool}
    (hmono : ∀ x ∈ l, q x = true → p x = true) {a : α} (ha : a ∈ l)
    (hpa : p a = true) (hqa : q a = false) : l.countP q < l.countP p := by
  obtain ⟨s, t, rfl⟩ := List.append_of_mem ha
  rw [List.countP_append, List.countP_append, List.countP_cons, List.countP_cons]
  have h1 : List.countP q s ≤ List.countP p s :=
    List.countP_mono_left (fun x hx => hmono x (List.mem_append_left _ hx))
  have h2 : List.countP q t ≤ List.countP p t :=
    List.countP_mono_left (fun x hx =>
      hmono x (List.mem_append_right _ (List.mem_cons_of_mem _ hx)))
  rw [if_pos hpa, if_neg (by rw [hqa]; simp)]
  omega

lemma backfillLoop_settles (embedOf : String → List ℚ) (batchSize : Nat)
    (hb : 1 ≤ batchSize) :
    ∀ (fuel : Nat) (catalog : List BackfillAsset) (writes : Nat),
      (catalog.filter isPending).length < fuel →
      ∀ a ∈ (backfillLoop embedOf batchSize fuel catalog writes).1, isPending a = false
  | 0, catalog, writes => fun hlt => absurd hlt (by omega)
  | fuel + 1, catalog, writes => fun hlt => by
    rw [backfillLoop]
    by_cases hbatch : (fetchBatch batchSize catalog).isEmpty
    · rw [if_pos hbatch]
      intro a ha
      have hnil : catalog.filter isPending = [] :=
        (fetchBatch_eq_nil_iff hb catalog).1 (List.isEmpty_iff.1 hbatch)
      exact Bool.eq_false_iff.2 (List.filter_eq_nil_iff.1 hnil a ha)
    · rw [if_neg hbatch]
      have hbne : fetchBatch batchSize catalog ≠ [] := by
        intro hn
        rw [hn] at hbatch
        exact hbatch rfl
      obtain ⟨b0, hb0⟩ := List.exists_mem_of_ne_nil _ hbne
      obtain ⟨hb0cat, hb0pend⟩ := fetchBatch_mem hb0
      have hcat2 : applyEmbeds embedOf
            (((fetchBatch batchSize catalog).filter fun a =>
              isMeaningfulValue a.name).map fun a => (a.id, backfillText a))
            (markSkips
              (((fetchBatch batchSize catalog).filter fun a =>
                !isMeaningfulValue a.name).map fun a => a.id) catalog) =
          catalog.map (fun a => embedFn embedOf
            (((fetchBatch batchSize catalog).filter fun a =>
              isMeaningfulValue a.name).map fun a => (a.id, backfillText a))
            (skipFn (((fetchBatch batchSize catalog).filter fun a =>
              !isMeaningfulValue a.name).map fun a => a.id) a)) := by
        unfold applyEmbeds markSkips
        rw [List.map_map]
        rfl
      have hcase : (((fetchBatch batchSize catalog).filter fun a =>
            !isMeaningfulValue a.name).map fun a => a.id).contains b0.id = true ∨
          ∃ it ∈ ((fetchBatch batchSize catalog).filter fun a =>
            isMeaningfulValue a.name).map fun a => (a.id, backfillText a), it.1 = b0.id := by
        by_cases hname : isMeaningfulValue b0.name
        · refine Or.inr ⟨(b0.id, backfillText b0), ?_, rfl⟩
          exact List.mem_map_of_mem _ (List.mem_filter.2 ⟨hb0, by simp [hname]⟩)
        · refine Or.inl ?_
          have hm : b0.id ∈ ((fetchBatch batchSize catalog).filter fun a =>
              !isMeaningfulValue a.name).map fun a => a.id :=
            List.mem_map_of_mem _ (List.mem_filter.2 ⟨hb0, by simp [hname]⟩)
          have : List.elem b0.id (((fetchBatch batchSize catalog).filter fun a =>
              !isMeaningfulValue a.name).map fun a => a.id) = true := List.elem_iff.2 hm
          simpa [List.contains] using this
      have hcount : ((catalog.map (fun a => embedFn embedOf
            (((fetchBatch batchSize catalog).filter fun a =>
              isMeaningfulValue a.name).map fun a => (a.id, backfillText a))
            (skipFn (((fetchBatch batchSize catalog).filter fun a =>
              !isMeaningfulValue a.name).map fun a => a.id) a))).filter isPending).length <
          (catalog.filter isPending).length := by
        rw [← List.countP_eq_length_filter, ← List.countP_eq_length_filter,
          List.countP_map]
        exact countP_lt_of_witness (fun x _ hx => pending_gFn hx) hb0cat hb0pend
          (gFn_not_pending hb0pend hcase)
      intro a ha
      have happ := backfillLoop_settles embedOf batchSize hb fuel
        (applyEmbeds embedOf
          (((fetchBatch batchSize catalog).filter fun a =>
            isMeaningfulValue a.name).map fun a => (a.id, backfillText a))
          (markSkips (((fetchBatch batchSize catalog).filter fun a =>
            !isMeaningfulValue a.name).map fun a => a.id) catalog))
        (writes + ((fetchBatch batchSize catalog).filter fun a =>
            !isMeaningfulValue a.name).length +
          (((fetchBatch batchSize catalog).filter fun a =>
            isMeaningfulValue a.name).map fun a => (a.id, backfillText a)).length)
        (by rw [hcat2]; omega)
      exact happ a ha

lemma backfillLoop_no_pending (embedOf : String → List ℚ) (batchSize : Nat)
    {catalog : List BackfillAsset} {writes fuel : Nat}
    (hnp : catalog.filter isPending = []) :
    backfillLoop embedOf batchSize (fuel + 1) catalog writes = (catalog, writes) := by
  rw [backfillLoop]
  rw [if_pos (by
    unfold fetchBatch
    rw [hnp]
    exact List.isEmpty_iff.2 (List.take_eq_nil_iff.2 (Or.inr rfl)))]

/-- C6: a backfill run leaves every catalog entry with either a text
embedding or a skip reason; running the pipeline again on the resulting
catalog issues zero writes — the pending-entry fetch returns nothing and
the loop terminates immediately, returning the catalog unchanged. -/
theorem backfill_idempotent (embedOf : String → List ℚ) (batchSize : Nat)
    (catalog : List BackfillAsset) (hb : 1 ≤ batchSize) :
    (∀ a ∈ (runBackfill embedOf batchSize catalog).1,
      a.textEmbedding.isSome = true ∨ a.embeddingSkipReason.isSome = true) ∧
    runBackfill embedOf batchSize (runBackfill embedOf batchSize catalog).1 =
      ((runBackfill embedOf batchSize catalog).1, 0) := by
  have hpost : ∀ a ∈ (runBackfill embedOf batchSize catalog).1, isPending a = false := by
    unfold runBackfill
    exact backfillLoop_settles embedOf batchSize hb (catalog.length + 1) catalog 0
      (by have := List.length_filter_le isPending catalog; omega)
  constructor
  · intro a ha
    have hp := hpost a ha
    unfold isPending at hp
    cases hte : a.textEmbedding with
    | some v => exact Or.inl rfl
    | none =>
      cases hsk : a.embeddingSkipReason with
      | some s => exact Or.inr rfl
      | none =>
        rw [hte, hsk] at hp
        simp at hp
  · have hnil : (runBackfill embedOf batchSize catalog).1.filter isPending = [] :=
      List.filter_eq_nil_iff.2 (fun a ha => by simp [hpost a ha])
    conv_lhs => rw [runBackfill]
    exact backfillLoop_no_pending embedOf batchSize hnil

/-- C6 witness: a three-entry catalog (meaningful name, empty name,
placeholder name) processed with batch size 2; the first run settles every
entry and the second run is the identity with zero writes. -/
theorem backfill_idempotent_witness :
    (1 : Nat) ≤ 2 ∧
    (∀ a ∈ (runBackfill (fun _ => ([] : List ℚ)) 2 demoBackfillCatalog).1,
      a.textEmbedding.isSome = true ∨ a.embeddingSkipReason.isSome = true) ∧
    runBackfill (fun _ => ([] : List ℚ)) 2
        (runBackfill (fun _ => ([] : List ℚ)) 2 demoBackfillCatalog).1 =
      ((runBackfill (fun _ => ([] : List ℚ)) 2 demoBackfillCatalog).1, 0) ∧
    (runBackfill (fun _ => ([] : List ℚ)) 2 demoBackfillCatalog).2 = 3 := by
  have h := backfill_idempotent (fun _ => ([] : List ℚ)) 2 demoBackfillCatalog
    (by decide)
  exact ⟨by decide, h.1, h.2, by decide⟩

end Tagventory
